import Mathlib

/-!
Verification of the filter-to-query compiler in `src/packages/orm/src/QueryBuilder.ts`
(the `buildQuery` function and its helpers `getAlias`, `abbreviation`,
`addClauses`, `addForeignKeyClause`, `addPrimitiveClause`, `addPrimitiveOperator`).

The embedding is shallow: the runtime JavaScript values that flow through the
compiler (filter clauses, order-by specifications) are modelled by the inductive
type `JsValue`; the knex query-builder object is modelled by the record
`CompiledQuery` whose methods (`where`, `whereIn`, `whereNull`, `whereNot`,
`whereNotNull`, `innerJoin`, `orderBy`, `limit`, `offset`) each append to or set
a field of the record, mirroring how the TypeScript code chains knex calls.
Fallible compilation is modelled with `Except String`, matching the TypeScript
code's `fail`/`throw`.

Collaborators that are not part of the provided sources (`ForeignKeySerde` from
`./serde`, `entityLimit` and the metadata types from `./EntityManager`,
`fail` from `./utils`) are modelled from the spec, as noted at each definition.
-/

namespace QueryBuilder

/-- JsValue models the JavaScript runtime values that the compiler inspects:
`null`, `undefined`, strings, numbers, booleans, arrays, plain objects
(with insertion-ordered keys, as JavaScript enumerates them), and entity
references (`isEntity` values, which carry an optional id). -/
inductive JsValue where
  | vNull
  | vUndefined
  | vStr (s : String)
  | vNum (n : Int)
  | vBool (b : Bool)
  | vArr (elems : List JsValue)
  | vObj (fields : List (String × JsValue))
  | vEntity (id : Option String)

/-- The JavaScript test `v === null || v === undefined`. -/
def isNullish : JsValue → Bool
  | .vNull => true
  | .vUndefined => true
  | _ => false

/-- The JavaScript test `v === s` against a string literal. -/
def isStrEq (v : JsValue) (s : String) : Bool :=
  match v with
  | .vStr t => t == s
  | _ => false

/-- Truthiness of a JavaScript value (`!!v`, and the guard of `if (v)`):
`null`, `undefined`, `false`, `0`, and the empty string are falsy; objects,
arrays and entity references are always truthy. -/
def jsTruthy : JsValue → Bool
  | .vNull => false
  | .vUndefined => false
  | .vStr s => !(s == "")
  | .vNum n => !(n == 0)
  | .vBool b => b
  | .vArr _ => true
  | .vObj _ => true
  | .vEntity _ => true

/-- The test `typeof v === "object"` of JavaScript: true for `null`, plain
objects, arrays and entity references; false for strings, numbers, booleans
and `undefined`. -/
def jsTypeofObject : JsValue → Bool
  | .vNull => true
  | .vObj _ => true
  | .vArr _ => true
  | .vEntity _ => true
  | _ => false

/-- Enumerated own keys, as `Object.keys` returns them: the insertion-ordered
field names of a plain object, the index strings of an array, and nothing
otherwise.  (The TypeScript compiler only ever enumerates values typed
`object`, so entity references and primitives are modelled as keyless.) -/
def jsKeys : JsValue → List String
  | .vObj fields => fields.map Prod.fst
  | .vArr elems => (List.range elems.length).map Nat.repr
  | _ => []

/-- Property lookup `v[key]`, yielding `undefined` when the key is absent or
the value is not a plain object. -/
def jsGet (v : JsValue) (key : String) : JsValue :=
  match v with
  | .vObj fields =>
    match fields.find? (fun f => f.1 == key) with
    | some f => f.2
    | none => .vUndefined
  | _ => .vUndefined

/-- The test `key in v` for a plain object. -/
def jsHasKey (v : JsValue) (key : String) : Bool :=
  match v with
  | .vObj fields => fields.any (fun f => f.1 == key)
  | _ => false

mutual

/-- Structural size of a JavaScript value, used as the termination measure of
the recursive clause compiler (and to compute a sufficient fuel for its
kernel-evaluable twin). -/
def jsSize : JsValue → Nat
  | .vNull => 1
  | .vUndefined => 1
  | .vStr _ => 1
  | .vNum _ => 1
  | .vBool _ => 1
  | .vArr elems => 1 + jsSizeList elems
  | .vObj fields => 1 + jsSizeFields fields
  | .vEntity _ => 1

/-- Size of an array's element list. -/
def jsSizeList : List JsValue → Nat
  | [] => 1
  | v :: rest => 1 + jsSize v + jsSizeList rest

/-- Size of an object's field list. -/
def jsSizeFields : List (String × JsValue) → Nat
  | [] => 1
  | (_, v) :: rest => 2 + jsSize v + jsSizeFields rest

end

/-- String interpolation of a value into an error message
(as in `` fail(`Invalid operator ${op}`) ``). -/
def jsDisplay : JsValue → String
  | .vNull => "null"
  | .vUndefined => "undefined"
  | .vStr s => s
  | .vNum n => toString n
  | .vBool b => toString b
  | .vArr _ => "[array]"
  | .vObj _ => "[object Object]"
  | .vEntity _ => "[entity]"

/-- Modelled from the spec: `fail` from `./utils` (not under `src/`): raises a
fatal error with the given message, aborting compilation. -/
def fail {α : Type} (message : String) : Except String α :=
  .error message

/-- Modelled from the spec: `entityLimit` from `./EntityManager` (not under
`src/`): "a fixed default maximum row count" applied when no limit is given,
so that "an unbounded query is never produced".  Its numeric value is not in
the provided sources; the claims depend only on it being a fixed positive
constant. -/
def entityLimit : Int := 50000

/-- Kind of a column's serde: `foreignKey other` models
`serde instanceof ForeignKeySerde` with `serde.otherMeta()` resolving to the
entity at index `other` of the schema catalog; `primitive` models every other
serde. -/
inductive SerdeKind where
  | foreignKey (other : Nat)
  | primitive

/-- ColumnMeta from `./EntityManager`, as consumed by the query builder:
a field name (the filter-key vocabulary), a storage column name, the serde
kind, and the serde's `mapToDb` lowering (modelled from the spec as an
arbitrary pure function, the "Value Codec"). -/
structure ColumnMeta where
  fieldName : String
  columnName : String
  kind : SerdeKind
  mapToDb : JsValue → JsValue

/-- EntityMetadata from `./EntityManager`, as consumed by the query builder:
a table name and the list of column descriptors. -/
structure EntityMetadata where
  tableName : String
  columns : List ColumnMeta

/-- The schema catalog: all entity metadata, indexed by `SerdeKind.foreignKey`. -/
abbrev Catalog : Type := List EntityMetadata

/-- One `where` predicate of the compiled query, one constructor per knex
call the TypeScript code makes. -/
inductive WherePred where
  | whereEq (col : String) (v : JsValue)
  | whereOp (col : String) (fn : String) (v : JsValue)
  | whereIn (col : String) (vs : List JsValue)
  | whereNull (col : String)
  | whereNotNull (col : String)
  | whereNot (col : String) (v : JsValue)

/-- One `innerJoin` clause: `innerJoin(table AS asAlias, onLeft, onRight)`. -/
structure JoinClause where
  table : String
  asAlias : String
  onLeft : String
  onRight : String

/-- The knex query-builder object accumulated by compilation: base table and
alias, joins, predicates, order terms (column reference and direction value;
knex defaults the direction to "asc" when none is passed), limit and offset. -/
structure CompiledQuery where
  fromTable : String
  fromAlias : String
  joins : List JoinClause
  wheres : List WherePred
  orders : List (String × JsValue)
  limit : Option Int
  offset : Option Int

namespace CompiledQuery

/-- Models `query.where(col, value)`. -/
def pushWhere (q : CompiledQuery) (col : String) (v : JsValue) : CompiledQuery :=
  { q with wheres := q.wheres ++ [.whereEq col v] }

/-- Models `query.where(col, fn, value)`. -/
def pushWhereOp (q : CompiledQuery) (col : String) (fn : String) (v : JsValue) : CompiledQuery :=
  { q with wheres := q.wheres ++ [.whereOp col fn v] }

/-- Models `query.whereIn(col, values)`. -/
def pushWhereIn (q : CompiledQuery) (col : String) (vs : List JsValue) : CompiledQuery :=
  { q with wheres := q.wheres ++ [.whereIn col vs] }

/-- Models `query.whereNull(col)`. -/
def pushWhereNull (q : CompiledQuery) (col : String) : CompiledQuery :=
  { q with wheres := q.wheres ++ [.whereNull col] }

/-- Models `query.whereNotNull(col)`. -/
def pushWhereNotNull (q : CompiledQuery) (col : String) : CompiledQuery :=
  { q with wheres := q.wheres ++ [.whereNotNull col] }

/-- Models `query.whereNot(col, value)`. -/
def pushWhereNot (q : CompiledQuery) (col : String) (v : JsValue) : CompiledQuery :=
  { q with wheres := q.wheres ++ [.whereNot col v] }

/-- Models `query.innerJoin(table AS als, onLeft, onRight)`. -/
def innerJoin (q : CompiledQuery) (table als onLeft onRight : String) : CompiledQuery :=
  { q with joins := q.joins ++ [⟨table, als, onLeft, onRight⟩] }

/-- Models `query.orderBy(col, direction)`; for the one-argument
`query.orderBy(col)` knex uses the default direction "asc". -/
def pushOrder (q : CompiledQuery) (col : String) (direction : JsValue) : CompiledQuery :=
  { q with orders := q.orders ++ [(col, direction)] }

end CompiledQuery

/-- The table aliases of a compiled query, in allocation order: the base
table's alias followed by the alias of each join. -/
def queryAliases (q : CompiledQuery) : List String :=
  q.fromAlias :: q.joins.map JoinClause.asAlias

/-- The fixed operator list `operators` of QueryBuilder.ts. -/
def operators : List String := ["eq", "gt", "gte", "ne", "lt", "lte", "like", "ilike", "in"]

/-- The member names of JavaScript's `Object.prototype`.  Bracket access on
a plain object literal traverses the prototype chain, so these names are
found on any object literal even though they are not own keys of it. -/
def objectProtoMembers : List String :=
  ["constructor", "hasOwnProperty", "isPrototypeOf", "propertyIsEnumerable",
   "toLocaleString", "toString", "valueOf", "__defineGetter__",
   "__defineSetter__", "__lookupGetter__", "__lookupSetter__", "__proto__"]

/-- The record `opToFn` of QueryBuilder.ts, as the bracket lookup
`opToFn[op]`.  An own operator key yields its SQL fragment.  The lookup also
traverses the prototype chain: a member name of `Object.prototype` (such as
`toString`) yields the inherited member, a truthy function that the source
then passes unchanged to `query.where` as its operator argument; that
inherited operator argument is represented here by the member's name.  Any
other string key yields `undefined`, here `none`.  (JavaScript coerces a
non-string key to a string before the lookup; the coerced forms of the
non-string constructors used here — decimal numerals, `true`/`false`,
`null`, `undefined`, `[object Object]` — never name an own or inherited
key, so non-strings map to `none`; an array key, whose coercion joins its
elements, never reaches this lookup in this development.) -/
def opToFn (op : JsValue) : Option String :=
  match op with
  | .vStr s =>
    if s = "eq" then some "=" else
    if s = "gt" then some ">" else
    if s = "gte" then some ">=" else
    if s = "ne" then some "!=" else
    if s = "lt" then some "<" else
    if s = "lte" then some "<=" else
    if s = "like" then some "LIKE" else
    if s = "ilike" then some "ILIKE" else
    if s = "in" then some "..." else
    if s ∈ objectProtoMembers then some s else none
  | _ => none

/-- Models `addPrimitiveOperator(query, alias, column, op, value)` of
QueryBuilder.ts.  At runtime `op` may be any value (it is taken unchecked
from an object key or from a clause's `op` field), so it is a `JsValue` here.
When the operand is `null`/`undefined`, only `ne` and `eq` are legal; `in`
maps the operand array through the codec into a membership predicate (a
non-array operand would crash the JavaScript `.map` call, modelled as an
error); any other operator is looked up in `opToFn` — which finds own
operator keys and, through the prototype chain, `Object.prototype` members —
failing with "Invalid operator" only when the lookup yields nothing. -/
def addPrimitiveOperator (q : CompiledQuery) (als : String) (column : ColumnMeta)
    (op : JsValue) (value : JsValue) : Except String CompiledQuery :=
  let col := als ++ "." ++ column.columnName
  if isNullish value then
    if isStrEq op "ne" then
      .ok (q.pushWhereNotNull col)
    else if isStrEq op "eq" then
      .ok (q.pushWhereNull col)
    else
      .error ("Only ne is supported when the value is undefined or null")
  else if isStrEq op "in" then
    match value with
    | .vArr elems => .ok (q.pushWhereIn col (elems.map column.mapToDb))
    | _ => .error ("TypeError: value.map is not a function")
  else
    match opToFn op with
    | some fn => .ok (q.pushWhereOp col fn (column.mapToDb value))
    | none => fail ("Invalid operator " ++ jsDisplay op)

/-- Models `addPrimitiveClause(query, alias, column, clause)` of
QueryBuilder.ts: an object containing an operator key dispatches on the
object's first enumerated key; an object with an `op` key dispatches on its
`op`/`value` fields; an array becomes a membership predicate; `null` becomes
an "is null" predicate; `undefined` adds nothing; any other value becomes an
equality predicate on the lowered value. -/
def addPrimitiveClause (q : CompiledQuery) (als : String) (column : ColumnMeta)
    (clause : JsValue) : Except String CompiledQuery :=
  if jsTruthy clause ∧ jsTypeofObject clause ∧ operators.any (fun op => (jsKeys clause).contains op) then
    let op := (jsKeys clause).headD ""
    addPrimitiveOperator q als column (.vStr op) (jsGet clause op)
  else if jsTruthy clause ∧ jsTypeofObject clause ∧ jsHasKey clause "op" then
    addPrimitiveOperator q als column (jsGet clause "op") (jsGet clause "value")
  else
    match clause with
    | .vArr elems => .ok (q.pushWhereIn (als ++ "." ++ column.columnName) (elems.map column.mapToDb))
    | .vNull => .ok (q.pushWhereNull (als ++ "." ++ column.columnName))
    | .vUndefined => .ok q
    | _ => .ok (q.pushWhere (als ++ "." ++ column.columnName) (column.mapToDb clause))

/-- Models `addForeignKeyClause(query, alias, column, clause)` of
QueryBuilder.ts.  Returns the pair `[whereNeedsJoin, query]`: entity
references, identifier strings, arrays, `null`/`undefined`, and the
single-key objects `{id: ...}` and `{ne: ...}` are resolved directly on the
key column with no join; any other object is a nested filter and signals
that a join is needed.  An entity reference without an id becomes the
always-false `where(col, -1)` sentinel; a non-string non-null value under
`ne` is a fatal "Not implemented" error. -/
def addForeignKeyClause (q : CompiledQuery) (als : String) (column : ColumnMeta)
    (clause : JsValue) : Except String (Bool × CompiledQuery) :=
  let col := als ++ "." ++ column.columnName
  match clause with
  | .vEntity none => .ok (false, q.pushWhere col (.vNum (-1)))
  | .vEntity (some i) => .ok (false, q.pushWhere col (column.mapToDb (.vEntity (some i))))
  | .vStr s => .ok (false, q.pushWhere col (column.mapToDb (.vStr s)))
  | .vArr elems => .ok (false, q.pushWhereIn col (elems.map column.mapToDb))
  | .vNull => .ok (false, q.pushWhereNull col)
  | .vUndefined => .ok (false, q.pushWhereNull col)
  | .vObj fields =>
    if fields.map Prod.fst = ["id"] then
      match jsGet (.vObj fields) "id" with
      | .vArr elems => .ok (false, q.pushWhereIn col (elems.map column.mapToDb))
      | value => .ok (false, q.pushWhere col (column.mapToDb value))
    else if fields.map Prod.fst = ["ne"] then
      match jsGet (.vObj fields) "ne" with
      | .vNull => .ok (false, q.pushWhereNotNull col)
      | .vUndefined => .ok (false, q.pushWhereNotNull col)
      | .vStr s => .ok (false, q.pushWhereNot col (column.mapToDb (.vStr s)))
      | _ => .error ("Not implemented")
    else
      .ok (true, q)
  | _ => .ok (true, q)

/-- Models JavaScript's `tableName.split("_")` on the character list of the
string: splitting at every underscore, keeping empty words (so `"a__b"`
splits as `["a", "", "b"]` and `""` as `[""]`). -/
def splitOnUnderscore : List Char → List (List Char)
  | [] => [[]]
  | c :: rest =>
    let r := splitOnUnderscore rest
    if c = '_' then [] :: r
    else
      match r with
      | w :: ws => (c :: w) :: ws
      | [] => [[c]]

/-- Models `abbreviation(tableName)` of QueryBuilder.ts: the first letter of
each underscore-delimited word, joined (JavaScript's `join` renders the
`undefined` produced by indexing into an empty word as the empty string,
matching `take 1` of an empty word). -/
def abbreviation (tableName : String) : String :=
  String.mk (((splitOnUnderscore tableName.data).map (fun w => w.take 1)).flatten)

/-- The per-compilation alias registry `aliases: Record<string, number>`,
as an association list from abbreviation to counter. -/
abbrev AliasState : Type := List (String × Nat)

/-- Models `aliases[abbrev] || 0`: the stored counter, or zero. -/
def lookupCount (st : AliasState) (ab : String) : Nat :=
  match st.find? (fun p => p.1 == ab) with
  | some p => p.2
  | none => 0

/-- Models the record assignment `aliases[abbrev] = n`. -/
def setCount : AliasState → String → Nat → AliasState
  | [], ab, n => [(ab, n)]
  | p :: rest, ab, n => if p.1 == ab then (ab, n) :: rest else p :: setCount rest ab n

/-- Models `getAlias(tableName)` of QueryBuilder.ts: abbreviation plus the
current counter for that abbreviation, incrementing the counter. -/
def getAlias (st : AliasState) (tableName : String) : String × AliasState :=
  let ab := abbreviation tableName
  let i := lookupCount st ab
  (ab ++ Nat.repr i, setCount st ab (i + 1))

theorem one_le_jsSize (v : JsValue) : 1 ≤ jsSize v := by
  cases v <;> simp_arith [jsSize]

theorem jsSize_mem_fields {fields : List (String × JsValue)} {f : String × JsValue}
    (hmem : f ∈ fields) : jsSize f.2 < jsSizeFields fields := by
  induction fields with
  | nil => cases hmem
  | cons g rest ih =>
    obtain ⟨a, b⟩ := g
    rcases List.mem_cons.mp hmem with h | h
    · subst h
      simp only [jsSizeFields]
      omega
    · have := ih h
      simp only [jsSizeFields]
      omega

theorem jsSize_find?_snd {fields : List (String × JsValue)} {p : String × JsValue → Bool}
    {f : String × JsValue} (h : fields.find? p = some f) :
    jsSize f.2 < 1 + jsSizeFields fields := by
  have hmem : f ∈ fields := List.mem_of_find?_eq_some h
  have := jsSize_mem_fields hmem
  omega

theorem jsGet_eq_of_find? {fields : List (String × JsValue)} {key : String}
    {f : String × JsValue} (hf : fields.find? (fun g => g.1 == key) = some f) :
    jsGet (.vObj fields) key = f.2 := by
  simp only [jsGet, hf]

theorem jsGet_jsSize_lt_of_hasKey {w : JsValue} {key : String}
    (h : jsHasKey w key = true) : jsSize (jsGet w key) < jsSize w := by
  cases w
  case vObj fields =>
    simp only [jsHasKey] at h
    obtain ⟨f, hf⟩ : ∃ f, fields.find? (fun g => g.1 == key) = some f := by
      have hs : (fields.find? (fun g => g.1 == key)).isSome := by
        rw [List.find?_isSome]
        exact List.any_eq_true.mp h
      exact Option.isSome_iff_exists.mp hs
    rw [jsGet_eq_of_find? hf]
    have := jsSize_find?_snd hf
    simp only [jsSize]
    omega
  all_goals simp [jsHasKey] at h

theorem jsGet_jsSize_lt_of_truthy {w : JsValue} {key : String}
    (h : jsTruthy (jsGet w key) = true) : jsSize (jsGet w key) < jsSize w := by
  cases w
  case vObj fields =>
    cases hf : fields.find? (fun g => g.1 == key) with
    | none =>
      have hu : jsGet (.vObj fields) key = .vUndefined := by simp only [jsGet, hf]
      rw [hu] at h
      simp [jsTruthy] at h
    | some f =>
      rw [jsGet_eq_of_find? hf]
      have := jsSize_find?_snd hf
      simp only [jsSize]
      omega
  all_goals simp [jsGet, jsTruthy] at h

/-- Models the body of `addClauses(meta, alias, where, orderBy)` of
QueryBuilder.ts, with the `keys.forEach` loop made explicit as recursion over
the pending key list (`keys` is always the concatenation of the where keys and
the order-by keys) and the mutable `query`/`aliases` state threaded through.
For each key: resolve the column (failing with "not found"), then either
handle a foreign-key column (direct clause via `addForeignKeyClause`, plus an
inner join and a recursive descent when the clause is a nested filter or an
order-by targets the related entity) or a primitive column (predicate via
`addPrimitiveClause`, plus an order term). -/
def addClausesGo (catalog : Catalog) (meta : EntityMetadata) (als : String)
    (whereV orderV : JsValue) (keys : List String)
    (st : AliasState) (q : CompiledQuery) : Except String (AliasState × CompiledQuery) :=
  match keys with
  | [] => .ok (st, q)
  | key :: rest =>
    match meta.columns.find? (fun c => c.fieldName == key) with
    | none => fail (key ++ " not found")
    | some column =>
      let clause := jsGet whereV key
      let hasClause := jsTruthy whereV && jsHasKey whereV key
      let order := jsGet orderV key
      let hasOrder := jsTruthy order
      match column.kind with
      | .foreignKey otherIdx =>
        match hfk : (if hasClause then addForeignKeyClause q als column clause
                     else .ok (false, q)) with
        | .error e => .error e
        | .ok (whereNeedsJoin, q1) =>
          if hj : (whereNeedsJoin || hasOrder) = true then
            match catalog[otherIdx]? with
            | none => fail ("metadata missing for " ++ column.fieldName)
            | some otherMeta =>
              let pair := getAlias st otherMeta.tableName
              let otherAlias := pair.1
              let st1 := pair.2
              let q2 := q1.innerJoin otherMeta.tableName otherAlias
                (als ++ "." ++ column.columnName) (otherAlias ++ ".id")
              match addClausesGo catalog otherMeta otherAlias
                  (if whereNeedsJoin then clause else .vUndefined)
                  (if hasOrder then order else .vUndefined)
                  (jsKeys (if whereNeedsJoin then clause else .vUndefined) ++
                   jsKeys (if hasOrder then order else .vUndefined)) st1 q2 with
              | .error e => .error e
              | .ok (st2, q3) => addClausesGo catalog meta als whereV orderV rest st2 q3
          else
            addClausesGo catalog meta als whereV orderV rest st q1
      | .primitive =>
        match (if hasClause then addPrimitiveClause q als column clause else .ok q) with
        | .error e => .error e
        | .ok q1 =>
          let q2 := if hasOrder then q1.pushOrder (als ++ "." ++ column.columnName) order else q1
          addClausesGo catalog meta als whereV orderV rest st q2
termination_by (jsSize whereV + jsSize orderV, keys.length)
decreasing_by
  · apply Prod.Lex.left
    have hwj : whereNeedsJoin = true → (jsTruthy whereV && jsHasKey whereV key) = true := by
      intro hw
      by_contra hc
      rw [dif_neg hc] at hfk
      simp only [Except.ok.injEq, Prod.mk.injEq] at hfk
      rw [← hfk.1] at hw
      exact absurd hw (by simp)
    split
    case isTrue hw =>
      have hk : jsHasKey whereV key = true := by
        have h2 := hwj hw
        simp only [Bool.and_eq_true] at h2
        exact h2.2
      have hlt := jsGet_jsSize_lt_of_hasKey hk
      split
      case isTrue ho =>
        have hlt2 := jsGet_jsSize_lt_of_truthy ho
        omega
      case isFalse ho =>
        have hle := one_le_jsSize orderV
        simp only [jsSize]
        omega
    case isFalse hw =>
      have ho : jsTruthy (jsGet orderV key) = true := by
        have h3 : whereNeedsJoin = true ∨ jsTruthy (jsGet orderV key) = true := by
          simpa using hj
        rcases h3 with h | h
        · exact absurd h hw
        · exact h
      rw [dif_pos ho]
      have hlt2 := jsGet_jsSize_lt_of_truthy ho
      have hle := one_le_jsSize whereV
      simp only [jsSize]
      omega
  · apply Prod.Lex.right
    simp only [List.length_cons]
    omega
  · apply Prod.Lex.right
    simp only [List.length_cons]
    omega
  · apply Prod.Lex.right
    simp only [List.length_cons]
    omega

/-- Models `addClauses(meta, alias, where, orderBy)` of QueryBuilder.ts at one
scope: the key list is the concatenation of the where keys and the order-by
keys (`[...Object.keys(where), ...Object.keys(orderBy)]`, each list empty when
the corresponding value is absent). -/
def addClauses (catalog : Catalog) (meta : EntityMetadata) (als : String)
    (whereV orderV : JsValue) (st : AliasState) (q : CompiledQuery) :
    Except String (AliasState × CompiledQuery) :=
  addClausesGo catalog meta als whereV orderV (jsKeys whereV ++ jsKeys orderV) st q

/-- The `FilterAndSettings` argument of `buildQuery`: the where tree, the
optional order-by tree (`vUndefined` when absent), and the optional limit and
offset. -/
structure FilterAndSettings where
  whereV : JsValue
  orderBy : JsValue
  limit : Option Int
  offset : Option Int

/-- Models `buildQuery(knex, type, filter)` of QueryBuilder.ts.  The entity
type is an index into the schema catalog (`getMetadata(type)` is the catalog
lookup).  Opens the base table under a fresh alias, runs the recursive clause
compiler, then appends the deterministic tail order term on the base id,
applies `limit || entityLimit`, and applies the offset only when it is given
and non-zero (`if (offset)`). -/
def buildQuery (catalog : Catalog) (typeIdx : Nat) (filter : FilterAndSettings) :
    Except String CompiledQuery :=
  match catalog[typeIdx]? with
  | none => fail ("metadata missing for type")
  | some meta =>
    let pair := getAlias [] meta.tableName
    let als := pair.1
    let st0 := pair.2
    let q0 : CompiledQuery :=
      { fromTable := meta.tableName, fromAlias := als, joins := [], wheres := [],
        orders := [], limit := none, offset := none }
    match addClauses catalog meta als filter.whereV filter.orderBy st0 q0 with
    | .error e => .error e
    | .ok (_, q1) =>
      let q2 := q1.pushOrder (als ++ ".id") (.vStr "asc")
      let q3 := { q2 with limit := some (match filter.limit with
        | some n => if n == 0 then entityLimit else n
        | none => entityLimit) }
      let q4 := match filter.offset with
        | some n => if n == 0 then q3 else { q3 with offset := some n }
        | none => q3
      .ok q4

/-- A fuel-indexed twin of `addClausesGo`, identical branch for branch, with
the recursion driven by a structural fuel parameter so that the kernel can
evaluate it on concrete inputs (the well-founded recursion of `addClausesGo`
does not reduce definitionally).  `addClausesFuel_eq_go` proves the two agree
whenever the fuel exceeds the termination measure of `addClausesGo`. -/
def addClausesFuel (catalog : Catalog) : Nat → EntityMetadata → String → JsValue → JsValue →
    List String → AliasState → CompiledQuery → Except String (AliasState × CompiledQuery)
  | 0, _, _, _, _, _, _, _ => .error "out of fuel"
  | fuel + 1, meta, als, whereV, orderV, keys, st, q =>
    match keys with
    | [] => .ok (st, q)
    | key :: rest =>
      match meta.columns.find? (fun c => c.fieldName == key) with
      | none => fail (key ++ " not found")
      | some column =>
        let clause := jsGet whereV key
        let hasClause := jsTruthy whereV && jsHasKey whereV key
        let order := jsGet orderV key
        let hasOrder := jsTruthy order
        match column.kind with
        | .foreignKey otherIdx =>
          match hfk : (if hasClause then addForeignKeyClause q als column clause
                       else .ok (false, q)) with
          | .error e => .error e
          | .ok (whereNeedsJoin, q1) =>
            if hj : (whereNeedsJoin || hasOrder) = true then
              match catalog[otherIdx]? with
              | none => fail ("metadata missing for " ++ column.fieldName)
              | some otherMeta =>
                let pair := getAlias st otherMeta.tableName
                let otherAlias := pair.1
                let st1 := pair.2
                let q2 := q1.innerJoin otherMeta.tableName otherAlias
                  (als ++ "." ++ column.columnName) (otherAlias ++ ".id")
                match addClausesFuel catalog fuel otherMeta otherAlias
                    (if whereNeedsJoin then clause else .vUndefined)
                    (if hasOrder then order else .vUndefined)
                    (jsKeys (if whereNeedsJoin then clause else .vUndefined) ++
                     jsKeys (if hasOrder then order else .vUndefined)) st1 q2 with
                | .error e => .error e
                | .ok (st2, q3) => addClausesFuel catalog fuel meta als whereV orderV rest st2 q3
            else
              addClausesFuel catalog fuel meta als whereV orderV rest st q1
        | .primitive =>
          match (if hasClause then addPrimitiveClause q als column clause else .ok q) with
          | .error e => .error e
          | .ok q1 =>
            let q2 := if hasOrder then q1.pushOrder (als ++ "." ++ column.columnName) order else q1
            addClausesFuel catalog fuel meta als whereV orderV rest st q2

/-- The fuel-driven twin of `buildQuery`, used to evaluate compilations on
concrete inputs; `buildQuery_eq_buildQueryF` proves it equal to `buildQuery`
everywhere. -/
def buildQueryF (catalog : Catalog) (typeIdx : Nat) (filter : FilterAndSettings) :
    Except String CompiledQuery :=
  match catalog[typeIdx]? with
  | none => fail ("metadata missing for type")
  | some meta =>
    let pair := getAlias [] meta.tableName
    let als := pair.1
    let st0 := pair.2
    let q0 : CompiledQuery :=
      { fromTable := meta.tableName, fromAlias := als, joins := [], wheres := [],
        orders := [], limit := none, offset := none }
    let s := jsSize filter.whereV + jsSize filter.orderBy
    match addClausesFuel catalog (s * s + s) meta als filter.whereV filter.orderBy
        (jsKeys filter.whereV ++ jsKeys filter.orderBy) st0 q0 with
    | .error e => .error e
    | .ok (_, q1) =>
      let q2 := q1.pushOrder (als ++ ".id") (.vStr "asc")
      let q3 := { q2 with limit := some (match filter.limit with
        | some n => if n == 0 then entityLimit else n
        | none => entityLimit) }
      let q4 := match filter.offset with
        | some n => if n == 0 then q3 else { q3 with offset := some n }
        | none => q3
      .ok q4

/-! Verification-layer definitions: projections of predicates, a minimal
row-level semantics for the emitted predicates, decimal-digit machinery for
reasoning about the alias strings `abbreviation ++ Nat.repr counter`, and
concrete schema fixtures used to instantiate the theorems. -/

/-- The column reference a predicate constrains. -/
def predColumn : WherePred → String
  | .whereEq c _ => c
  | .whereOp c _ _ => c
  | .whereIn c _ => c
  | .whereNull c => c
  | .whereNotNull c => c
  | .whereNot c _ => c

/-- Whether a predicate is an equality or membership predicate. -/
def isEqOrIn : WherePred → Bool
  | .whereEq _ _ => true
  | .whereIn _ _ => true
  | _ => false

/-- Modelled from the spec: row-level truth of an emitted predicate, a row
being a valuation of column references.  Binary-operator comparisons are left
abstract (their truth lives in the external SQL engine); the shapes the
claims need (equality, membership, null tests) are interpreted directly. -/
def evalPred (row : String → JsValue) : WherePred → Prop
  | .whereEq c v => row c = v
  | .whereOp _ _ _ => True
  | .whereIn c vs => row c ∈ vs
  | .whereNull c => row c = .vNull
  | .whereNotNull c => row c ≠ .vNull
  | .whereNot c v => row c ≠ v

/-- The decimal digit list of a natural number, most significant first:
the mathematical description of what `Nat.toDigitsCore` computes at base 10. -/
def natDigits (n : Nat) : List Char :=
  if h : n < 10 then [Nat.digitChar n]
  else natDigits (n / 10) ++ [Nat.digitChar (n % 10)]
decreasing_by exact Nat.div_lt_self (by omega) (by omega)

/-- A pointwise bound between two alias-registry states: every abbreviation's
counter is at least as large in the second state. -/
def StLe (st st' : AliasState) : Prop :=
  ∀ ab, lookupCount st ab ≤ lookupCount st' ab

/-- An alias string is accounted for by the registry: it decomposes as a
digit-free abbreviation followed by the decimal rendering of a counter value
strictly below the abbreviation's stored counter. -/
def AliasOk (st : AliasState) (a : String) : Prop :=
  ∃ ab n, (∀ c ∈ ab.data, ¬ c.isDigit = true) ∧ a = ab ++ Nat.repr n ∧ n < lookupCount st ab

/-- The alias invariant carried through compilation: the aliases of the
in-progress query are pairwise distinct and all accounted for by the registry. -/
def AliasInv (st : AliasState) (q : CompiledQuery) : Prop :=
  (queryAliases q).Nodup ∧ ∀ a ∈ queryAliases q, AliasOk st a

/-- A schema catalog none of whose table-name abbreviations contains a
decimal digit (true of ordinary table names, whose underscore-separated
words start with letters). -/
def DigitFree (catalog : Catalog) : Prop :=
  ∀ meta ∈ catalog, ∀ c ∈ (abbreviation meta.tableName).data, ¬ c.isDigit = true

/-- Extracts the query of a successful compilation (a dummy query otherwise);
used to name concrete compiled queries in closed statements. -/
def getOk : Except String CompiledQuery → CompiledQuery
  | .ok q => q
  | .error _ =>
    { fromTable := "", fromAlias := "", joins := [], wheres := [], orders := [],
      limit := none, offset := none }

/-- The identity value codec, for concrete fixtures. -/
def idCodec : JsValue → JsValue := fun v => v

/-- A primitive column fixture. -/
def sampleColumn : ColumnMeta :=
  { fieldName := "age", columnName := "age", kind := .primitive, mapToDb := idCodec }

/-- A foreign-key column fixture (pointing at catalog index 1). -/
def fkColumn : ColumnMeta :=
  { fieldName := "publisherFk", columnName := "publisher_id", kind := .foreignKey 1,
    mapToDb := idCodec }

/-- An empty query fixture over a base table. -/
def baseQuery : CompiledQuery :=
  { fromTable := "authors", fromAlias := "a0", joins := [], wheres := [], orders := [],
    limit := none, offset := none }

/-- Author entity fixture: primitive `id` and `age`, foreign key `publisherFk`. -/
def authorMeta : EntityMetadata :=
  { tableName := "authors",
    columns := [
      { fieldName := "id", columnName := "id", kind := .primitive, mapToDb := idCodec },
      sampleColumn,
      fkColumn ] }

/-- Publisher entity fixture: primitive `id` and `name`. -/
def publisherMeta : EntityMetadata :=
  { tableName := "publishers",
    columns := [
      { fieldName := "id", columnName := "id", kind := .primitive, mapToDb := idCodec },
      { fieldName := "name", columnName := "name", kind := .primitive, mapToDb := idCodec } ] }

/-- The two-entity fixture catalog. -/
def authorCatalog : Catalog := [authorMeta, publisherMeta]

/-- A filter fixture: `{age: {gt: 30}, publisherFk: {name: "Acme"}}` ordered by
`{age: "DESC"}`. -/
def basicFilter : FilterAndSettings :=
  { whereV := .vObj [("age", .vObj [("gt", .vNum 30)]),
      ("publisherFk", .vObj [("name", .vStr "Acme")])],
    orderBy := .vObj [("age", .vStr "DESC")], limit := none, offset := none }

/-- Entity fixture for the alias-collision counterexample: table `apple` with
ten self-referencing foreign keys `f1`..`f10` and one foreign key `g` to
table `apple_1pear`. -/
def appleMeta : EntityMetadata :=
  { tableName := "apple",
    columns :=
      { fieldName := "name", columnName := "name", kind := .primitive, mapToDb := idCodec } ::
      (List.range 10).map (fun i =>
        { fieldName := "f" ++ Nat.repr (i + 1), columnName := "f" ++ Nat.repr (i + 1) ++ "_id",
          kind := .foreignKey 0, mapToDb := idCodec }) ++
      [{ fieldName := "g", columnName := "g_id", kind := .foreignKey 1, mapToDb := idCodec }] }

/-- Entity fixture for the alias-collision counterexample: table `apple_1pear`
(whose abbreviation "a1" collides with the eleventh counter value of the
abbreviation "a" of `apple`). -/
def pearMeta : EntityMetadata :=
  { tableName := "apple_1pear",
    columns := [
      { fieldName := "name", columnName := "name", kind := .primitive, mapToDb := idCodec } ] }

/-- The catalog of the alias-collision counterexample. -/
def collisionCatalog : Catalog := [appleMeta, pearMeta]

/-- The filter of the alias-collision counterexample: a nested filter on each
of `f1`..`f10` and on `g`, forcing eleven joins. -/
def collisionFilter : FilterAndSettings :=
  { whereV := .vObj
      ((List.range 10).map (fun i => ("f" ++ Nat.repr (i + 1), JsValue.vObj [("name", .vStr "z")])) ++
       [("g", JsValue.vObj [("name", .vStr "z")])]),
    orderBy := .vUndefined, limit := none, offset := none }

/-- The compiled query of the basic fixture compilation (via the fuel-driven
twin, so that it evaluates in the kernel). -/
def basicQuery : CompiledQuery := getOk (buildQueryF authorCatalog 0 basicFilter)

/-- A filter fixture with an explicit zero limit and zero offset. -/
def limitZeroFilter : FilterAndSettings :=
  { whereV := .vObj [], orderBy := .vUndefined, limit := some 0, offset := some 0 }

/-- A filter fixture with ordinary pagination. -/
def paginationFilter : FilterAndSettings :=
  { whereV := .vObj [], orderBy := .vUndefined, limit := some 5, offset := some 3 }

/-- The compiled query of the pagination fixture. -/
def paginationQuery : CompiledQuery := getOk (buildQueryF authorCatalog 0 paginationFilter)

/-- A filter fixture whose where clause uses a field name that exists in no
column descriptor of the author entity. -/
def badFieldFilter : FilterAndSettings :=
  { whereV := .vObj [("badField", .vNum 1)], orderBy := .vUndefined,
    limit := none, offset := none }

/-! Lemmas. -/

theorem length_le_jsSizeList (l : List JsValue) : l.length ≤ jsSizeList l := by
  induction l with
  | nil => simp [jsSizeList]
  | cons v rest ih =>
    simp only [jsSizeList, List.length_cons]
    omega

theorem length_le_jsSizeFields (l : List (String × JsValue)) : l.length ≤ jsSizeFields l := by
  induction l with
  | nil => simp [jsSizeFields]
  | cons f rest ih =>
    obtain ⟨a, b⟩ := f
    simp only [jsSizeFields, List.length_cons]
    omega

theorem jsKeys_length_lt (v : JsValue) : (jsKeys v).length < jsSize v := by
  cases v <;>
    simp only [jsKeys, jsSize, List.length_map, List.length_range, List.length_nil]
  case vArr elems => have := length_le_jsSizeList elems; omega
  case vObj fields => have := length_le_jsSizeFields fields; omega
  all_goals omega

theorem addClausesFuel_eq_go (catalog : Catalog) :
    ∀ (fuel : Nat) (meta : EntityMetadata) (als : String) (whereV orderV : JsValue)
      (keys : List String) (st : AliasState) (q : CompiledQuery),
      (jsSize whereV + jsSize orderV) * (jsSize whereV + jsSize orderV) + keys.length < fuel →
      addClausesFuel catalog fuel meta als whereV orderV keys st q =
        addClausesGo catalog meta als whereV orderV keys st q := by
  intro fuel
  induction fuel with
  | zero =>
    intro _ _ _ _ _ _ _ h
    omega
  | succ fuel ih =>
    intro meta als whereV orderV keys st q h
    rw [addClausesGo.eq_def]
    cases keys with
    | nil => rfl
    | cons key rest =>
      simp only [addClausesFuel]
      cases hcol : meta.columns.find? (fun c => c.fieldName == key) with
      | none => rfl
      | some column =>
        dsimp only
        cases hk : column.kind with
        | primitive =>
          dsimp only
          cases hpc : (if (jsTruthy whereV && jsHasKey whereV key) = true then
              addPrimitiveClause q als column (jsGet whereV key) else Except.ok q) with
          | error e => rfl
          | ok q1 =>
            dsimp only
            exact ih meta als whereV orderV rest st _ (by simp only [List.length_cons] at h; omega)
        | foreignKey otherIdx =>
          dsimp only
          cases hfk2 : (if (jsTruthy whereV && jsHasKey whereV key) = true then
              addForeignKeyClause q als column (jsGet whereV key) else Except.ok (false, q)) with
          | error e => rfl
          | ok p =>
            obtain ⟨whereNeedsJoin, q1⟩ := p
            dsimp only
            by_cases hb : (whereNeedsJoin || jsTruthy (jsGet orderV key)) = true
            · rw [dif_pos hb, dif_pos hb]
              cases hcm : catalog[otherIdx]? with
              | none => rfl
              | some otherMeta =>
                dsimp only
                have harith : (jsSize (if whereNeedsJoin then jsGet whereV key else .vUndefined) +
                    jsSize (if jsTruthy (jsGet orderV key) then jsGet orderV key else .vUndefined)) *
                    (jsSize (if whereNeedsJoin then jsGet whereV key else .vUndefined) +
                    jsSize (if jsTruthy (jsGet orderV key) then jsGet orderV key else .vUndefined)) +
                    (jsKeys (if whereNeedsJoin then jsGet whereV key else .vUndefined) ++
                     jsKeys (if jsTruthy (jsGet orderV key) then jsGet orderV key else .vUndefined)).length
                    < fuel := by
                  have hwj : whereNeedsJoin = true →
                      (jsTruthy whereV && jsHasKey whereV key) = true := by
                    intro hw
                    by_contra hc
                    rw [if_neg hc] at hfk2
                    simp only [Except.ok.injEq, Prod.mk.injEq] at hfk2
                    rw [← hfk2.1] at hw
                    exact absurd hw (by simp)
                  have hs1 : jsSize (if whereNeedsJoin then jsGet whereV key else .vUndefined) +
                      jsSize (if jsTruthy (jsGet orderV key) then jsGet orderV key else .vUndefined) + 1
                      ≤ jsSize whereV + jsSize orderV := by
                    have hlw := one_le_jsSize whereV
                    have hlo := one_le_jsSize orderV
                    cases hwcase : whereNeedsJoin with
                    | true =>
                      have hk1 : jsHasKey whereV key = true := by
                        have h2 := hwj hwcase
                        simp only [Bool.and_eq_true] at h2
                        exact h2.2
                      have hlt := jsGet_jsSize_lt_of_hasKey hk1
                      by_cases ho : jsTruthy (jsGet orderV key) = true
                      · have hlt2 := jsGet_jsSize_lt_of_truthy ho
                        rw [if_pos rfl, if_pos ho]
                        omega
                      · rw [if_pos rfl, if_neg ho]
                        simp only [jsSize]
                        omega
                    | false =>
                      have ho : jsTruthy (jsGet orderV key) = true := by
                        rw [hwcase] at hb
                        simpa using hb
                      have hlt2 := jsGet_jsSize_lt_of_truthy ho
                      rw [if_neg (by simp), if_pos ho]
                      simp only [jsSize]
                      omega
                  have hk1 := jsKeys_length_lt (if whereNeedsJoin then jsGet whereV key else .vUndefined)
                  have hk2 := jsKeys_length_lt
                    (if jsTruthy (jsGet orderV key) then jsGet orderV key else .vUndefined)
                  have hlw := one_le_jsSize whereV
                  have hlo := one_le_jsSize orderV
                  obtain ⟨t, ht⟩ : ∃ t, jsSize whereV + jsSize orderV = t + 1 :=
                    ⟨jsSize whereV + jsSize orderV - 1, by omega⟩
                  have hmul : (jsSize (if whereNeedsJoin then jsGet whereV key else .vUndefined) +
                      jsSize (if jsTruthy (jsGet orderV key) then jsGet orderV key else .vUndefined)) *
                      (jsSize (if whereNeedsJoin then jsGet whereV key else .vUndefined) +
                      jsSize (if jsTruthy (jsGet orderV key) then jsGet orderV key else .vUndefined))
                      ≤ t * t := by
                    apply Nat.mul_le_mul <;> omega
                  have hexp : (t + 1) * (t + 1) = t * t + 2 * t + 1 := by ring
                  rw [ht] at h
                  simp only [List.length_append, List.length_cons] at h ⊢
                  omega
                rw [ih otherMeta _ _ _ _ _ _ harith]
                cases hnest : addClausesGo catalog otherMeta
                    ((getAlias st otherMeta.tableName).1)
                    (if whereNeedsJoin then jsGet whereV key else .vUndefined)
                    (if jsTruthy (jsGet orderV key) then jsGet orderV key else .vUndefined)
                    (jsKeys (if whereNeedsJoin then jsGet whereV key else .vUndefined) ++
                     jsKeys (if jsTruthy (jsGet orderV key) then jsGet orderV key else .vUndefined))
                    ((getAlias st otherMeta.tableName).2)
                    (q1.innerJoin otherMeta.tableName ((getAlias st otherMeta.tableName).1)
                      (als ++ "." ++ column.columnName)
                      (((getAlias st otherMeta.tableName).1) ++ ".id")) with
                | error e => rfl
                | ok p2 =>
                  obtain ⟨st2, q3⟩ := p2
                  exact ih meta als whereV orderV rest st2 q3
                    (by simp only [List.length_cons] at h; omega)
            · rw [dif_neg hb, dif_neg hb]
              exact ih meta als whereV orderV rest st q1
                (by simp only [List.length_cons] at h; omega)

theorem buildQuery_eq_buildQueryF (catalog : Catalog) (typeIdx : Nat)
    (filter : FilterAndSettings) :
    buildQuery catalog typeIdx filter = buildQueryF catalog typeIdx filter := by
  unfold buildQuery buildQueryF
  cases catalog[typeIdx]? with
  | none => rfl
  | some meta =>
    dsimp only
    rw [addClauses, addClausesFuel_eq_go]
    have h1 := jsKeys_length_lt filter.whereV
    have h2 := jsKeys_length_lt filter.orderBy
    simp only [List.length_append]
    omega

theorem addForeignKeyClause_frame {q : CompiledQuery} {als : String} {column : ColumnMeta}
    {clause : JsValue} {b : Bool} {q2 : CompiledQuery}
    (h : addForeignKeyClause q als column clause = .ok (b, q2)) :
    q2.fromAlias = q.fromAlias ∧ q2.fromTable = q.fromTable ∧ q2.joins = q.joins ∧
    q2.limit = q.limit ∧ q2.offset = q.offset ∧ q2.orders = q.orders := by
  cases clause
  case vObj fields =>
    unfold addForeignKeyClause at h
    dsimp only at h
    split at h
    · split at h <;>
        (injection h with h1
         injection h1 with hb hq
         subst hq
         simp [CompiledQuery.pushWhere, CompiledQuery.pushWhereIn])
    · split at h
      · split at h <;>
          first
            | (injection h with h1
               injection h1 with hb hq
               subst hq
               simp [CompiledQuery.pushWhereNotNull, CompiledQuery.pushWhereNot])
            | injection h
      · injection h with h1
        injection h1 with hb hq
        subst hq
        simp
  case vEntity oid =>
    cases oid <;>
      (unfold addForeignKeyClause at h
       injection h with h1
       injection h1 with hb hq
       subst hq
       simp [CompiledQuery.pushWhere])
  all_goals
    (unfold addForeignKeyClause at h
     injection h with h1
     injection h1 with hb hq
     subst hq
     simp [CompiledQuery.pushWhere, CompiledQuery.pushWhereIn,
       CompiledQuery.pushWhereNull])

theorem addPrimitiveOperator_frame {q : CompiledQuery} {als : String} {column : ColumnMeta}
    {op value : JsValue} {q2 : CompiledQuery}
    (h : addPrimitiveOperator q als column op value = .ok q2) :
    q2.fromAlias = q.fromAlias ∧ q2.fromTable = q.fromTable ∧ q2.joins = q.joins ∧
    q2.limit = q.limit ∧ q2.offset = q.offset ∧ q2.orders = q.orders := by
  unfold addPrimitiveOperator at h
  split at h
  · split at h
    · injection h with hq
      subst hq
      simp [CompiledQuery.pushWhereNotNull]
    · split at h
      · injection h with hq
        subst hq
        simp [CompiledQuery.pushWhereNull]
      · exact absurd h (by simp)
  · split at h
    · split at h
      · injection h with hq
        subst hq
        simp [CompiledQuery.pushWhereIn]
      · exact absurd h (by simp)
    · split at h
      · injection h with hq
        subst hq
        simp [CompiledQuery.pushWhereOp]
      · simp [fail] at h

theorem addPrimitiveClause_frame {q : CompiledQuery} {als : String} {column : ColumnMeta}
    {clause : JsValue} {q2 : CompiledQuery}
    (h : addPrimitiveClause q als column clause = .ok q2) :
    q2.fromAlias = q.fromAlias ∧ q2.fromTable = q.fromTable ∧ q2.joins = q.joins ∧
    q2.limit = q.limit ∧ q2.offset = q.offset ∧ q2.orders = q.orders := by
  unfold addPrimitiveClause at h
  split at h
  · exact addPrimitiveOperator_frame h
  · split at h
    · exact addPrimitiveOperator_frame h
    · split at h <;>
        first
          | exact addPrimitiveOperator_frame h
          | (injection h with hq
             subst hq
             simp [CompiledQuery.pushWhere, CompiledQuery.pushWhereIn,
               CompiledQuery.pushWhereNull])

/-- C4: for every primitive-column operator application whose operand value is
null or absent, the equal operator produces an "is null" predicate and the
not-equal operator an "is not null" predicate, while every other operator
(greater, greater-or-equal, less, less-or-equal, pattern-match,
case-insensitive-pattern-match, membership) raises the fatal
unsupported-operation error. -/
theorem addPrimitiveOperator_null_rules (q : CompiledQuery) (als : String)
    (column : ColumnMeta) (value : JsValue) (hv : isNullish value = true) :
    addPrimitiveOperator q als column (.vStr "eq") value =
      .ok (q.pushWhereNull (als ++ "." ++ column.columnName)) ∧
    addPrimitiveOperator q als column (.vStr "ne") value =
      .ok (q.pushWhereNotNull (als ++ "." ++ column.columnName)) ∧
    ∀ op, op ∈ ["gt", "gte", "lt", "lte", "like", "ilike", "in"] →
      addPrimitiveOperator q als column (.vStr op) value =
        .error ("Only ne is supported when the value is undefined or null") := by
  refine ⟨?_, ?_, ?_⟩
  · unfold addPrimitiveOperator
    rw [if_pos hv]
    rfl
  · unfold addPrimitiveOperator
    rw [if_pos hv]
    rfl
  · intro op hop
    unfold addPrimitiveOperator
    rw [if_pos hv]
    fin_cases hop <;> rfl

theorem addPrimitiveOperator_null_rules_witness :
    addPrimitiveOperator baseQuery "a0" sampleColumn (.vStr "eq") .vNull =
      .ok (baseQuery.pushWhereNull ("a0" ++ "." ++ sampleColumn.columnName)) ∧
    addPrimitiveOperator baseQuery "a0" sampleColumn (.vStr "ne") .vNull =
      .ok (baseQuery.pushWhereNotNull ("a0" ++ "." ++ sampleColumn.columnName)) ∧
    addPrimitiveOperator baseQuery "a0" sampleColumn (.vStr "gt") .vNull =
      .error ("Only ne is supported when the value is undefined or null") := by
  have h := addPrimitiveOperator_null_rules baseQuery "a0" sampleColumn .vNull rfl
  exact ⟨h.1, h.2.1, h.2.2 "gt" (by simp)⟩

/-- C5: for every foreign-key clause shaped `{ne: value}`: null/absent value
gives an "is not null" predicate on the key column; a concrete identifier
(string) value gives an inequality predicate on the key column; any other
value shape raises the fatal "Not implemented" unsupported-operation error;
and in each successful case no join is signalled and the join list is
unchanged. -/
theorem addForeignKeyClause_ne_rules (q : CompiledQuery) (als : String)
    (column : ColumnMeta) (v : JsValue) :
    (isNullish v = true →
      addForeignKeyClause q als column (.vObj [("ne", v)]) =
        .ok (false, q.pushWhereNotNull (als ++ "." ++ column.columnName))) ∧
    (∀ s, v = .vStr s →
      addForeignKeyClause q als column (.vObj [("ne", v)]) =
        .ok (false, q.pushWhereNot (als ++ "." ++ column.columnName)
          (column.mapToDb (.vStr s)))) ∧
    (isNullish v = false → (∀ s, v ≠ .vStr s) →
      addForeignKeyClause q als column (.vObj [("ne", v)]) = .error ("Not implemented")) ∧
    (∀ b q2, addForeignKeyClause q als column (.vObj [("ne", v)]) = .ok (b, q2) →
      b = false ∧ q2.joins = q.joins) := by
  refine ⟨?_, ?_, ?_, ?_⟩
  · intro hv
    cases v <;> first | rfl | simp [isNullish] at hv
  · intro s hs
    subst hs
    rfl
  · intro h1 h2
    cases v <;> first | rfl | exact absurd rfl (h2 _) | simp [isNullish] at h1
  · intro b q2 hbq
    have hframe := addForeignKeyClause_frame hbq
    refine ⟨?_, hframe.2.2.1⟩
    cases v <;>
      (unfold addForeignKeyClause at hbq
       first
        | (injection hbq with h1
           injection h1 with hb hq
           exact hb.symm)
        | injection hbq)

theorem addForeignKeyClause_ne_rules_witness :
    addForeignKeyClause baseQuery "a0" fkColumn (.vObj [("ne", .vNull)]) =
      .ok (false, baseQuery.pushWhereNotNull ("a0" ++ "." ++ fkColumn.columnName)) ∧
    addForeignKeyClause baseQuery "a0" fkColumn (.vObj [("ne", .vStr "p1")]) =
      .ok (false, baseQuery.pushWhereNot ("a0" ++ "." ++ fkColumn.columnName)
        (fkColumn.mapToDb (.vStr "p1"))) ∧
    addForeignKeyClause baseQuery "a0" fkColumn (.vObj [("ne", .vNum 3)]) =
      .error ("Not implemented") := by
  refine ⟨?_, ?_, ?_⟩
  · exact (addForeignKeyClause_ne_rules baseQuery "a0" fkColumn .vNull).1 rfl
  · exact (addForeignKeyClause_ne_rules baseQuery "a0" fkColumn (.vStr "p1")).2.1 "p1" rfl
  · exact (addForeignKeyClause_ne_rules baseQuery "a0" fkColumn (.vNum 3)).2.2.1 rfl
      (by intro s hs; cases hs)

/-- C6: filtering a foreign-key field by an entity reference whose identifier
is undefined succeeds, produces no join, and emits on the key column the
always-false sentinel predicate `key = -1`, which matches no row whose key
column holds a database identifier (a natural number, per the value-codec
model) or is null. -/
theorem addForeignKeyClause_unsaved_entity (q : CompiledQuery) (als : String)
    (column : ColumnMeta) :
    addForeignKeyClause q als column (.vEntity none) =
      .ok (false, q.pushWhere (als ++ "." ++ column.columnName) (.vNum (-1))) ∧
    (q.pushWhere (als ++ "." ++ column.columnName) (.vNum (-1))).joins = q.joins ∧
    ∀ (row : String → JsValue),
      ((∃ n : Nat, row (als ++ "." ++ column.columnName) = .vNum (n : Int)) ∨
        row (als ++ "." ++ column.columnName) = .vNull) →
      ¬ evalPred row (.whereEq (als ++ "." ++ column.columnName) (.vNum (-1))) := by
  refine ⟨rfl, rfl, ?_⟩
  intro row hrow hmatch
  simp only [evalPred] at hmatch
  rcases hrow with ⟨n, hn⟩ | hn <;> rw [hn] at hmatch
  · injection hmatch with h1
    omega
  · cases hmatch

theorem addForeignKeyClause_unsaved_entity_witness :
    addForeignKeyClause baseQuery "a0" fkColumn (.vEntity none) =
      .ok (false, baseQuery.pushWhere ("a0" ++ "." ++ fkColumn.columnName) (.vNum (-1))) ∧
    ¬ evalPred (fun _ => .vNum ((7 : Nat) : Int))
      (.whereEq ("a0" ++ "." ++ fkColumn.columnName) (.vNum (-1))) := by
  have h := addForeignKeyClause_unsaved_entity baseQuery "a0" fkColumn
  exact ⟨h.1, h.2.2 (fun _ => .vNum ((7 : Nat) : Int)) (Or.inl ⟨7, rfl⟩)⟩

/-- C3: filtering a foreign-key field by a bare identifier string, an entity
reference, an array, or a single-key object `{id: value}` or `{id: value[]}`
adds exactly one equality or membership predicate directly on the key column
under the current alias, signals that no join is needed, and leaves the join
list unchanged. -/
theorem addForeignKeyClause_no_join (q : CompiledQuery) (als : String)
    (column : ColumnMeta) (clause : JsValue)
    (hshape : (∃ s, clause = .vStr s) ∨ (∃ xs, clause = .vArr xs) ∨
      (∃ oid, clause = .vEntity oid) ∨ (∃ v, clause = .vObj [("id", v)])) :
    ∃ p q2, addForeignKeyClause q als column clause = .ok (false, q2) ∧
      q2.joins = q.joins ∧ q2.wheres = q.wheres ++ [p] ∧
      predColumn p = als ++ "." ++ column.columnName ∧ isEqOrIn p = true := by
  rcases hshape with ⟨s, rfl⟩ | ⟨xs, rfl⟩ | ⟨oid, rfl⟩ | ⟨v, rfl⟩
  · exact ⟨_, _, rfl, rfl, rfl, rfl, rfl⟩
  · exact ⟨_, _, rfl, rfl, rfl, rfl, rfl⟩
  · cases oid <;> exact ⟨_, _, rfl, rfl, rfl, rfl, rfl⟩
  · cases v <;> exact ⟨_, _, rfl, rfl, rfl, rfl, rfl⟩

theorem addForeignKeyClause_no_join_witness :
    ∃ p q2,
      addForeignKeyClause baseQuery "a0" fkColumn (.vObj [("id", .vStr "p1")]) =
        .ok (false, q2) ∧
      q2.joins = baseQuery.joins ∧ q2.wheres = baseQuery.wheres ++ [p] ∧
      predColumn p = "a0" ++ "." ++ fkColumn.columnName ∧ isEqOrIn p = true :=
  addForeignKeyClause_no_join baseQuery "a0" fkColumn (.vObj [("id", .vStr "p1")])
    (Or.inr (Or.inr (Or.inr ⟨.vStr "p1", rfl⟩)))

theorem addClausesGo_as_fuel (catalog : Catalog) (meta : EntityMetadata) (als : String)
    (whereV orderV : JsValue) (keys : List String) (st : AliasState) (q : CompiledQuery) :
    addClausesGo catalog meta als whereV orderV keys st q =
      addClausesFuel catalog
        ((jsSize whereV + jsSize orderV) * (jsSize whereV + jsSize orderV) + keys.length + 1)
        meta als whereV orderV keys st q :=
  (addClausesFuel_eq_go catalog _ meta als whereV orderV keys st q (by omega)).symm

theorem addClausesFuel_frame (catalog : Catalog) :
    ∀ (fuel : Nat) (meta : EntityMetadata) (als : String) (whereV orderV : JsValue)
      (keys : List String) (st : AliasState) (q : CompiledQuery)
      (st2 : AliasState) (q2 : CompiledQuery),
      addClausesFuel catalog fuel meta als whereV orderV keys st q = .ok (st2, q2) →
      q2.fromAlias = q.fromAlias ∧ q2.fromTable = q.fromTable ∧
      q2.limit = q.limit ∧ q2.offset = q.offset := by
  intro fuel
  induction fuel with
  | zero =>
    intro meta als whereV orderV keys st q st2 q2 h
    simp [addClausesFuel] at h
  | succ fuel ih =>
    intro meta als whereV orderV keys st q st2 q2 h
    cases keys with
    | nil =>
      simp only [addClausesFuel] at h
      injection h with h1
      injection h1 with hst hq
      subst hq
      exact ⟨rfl, rfl, rfl, rfl⟩
    | cons key rest =>
      simp only [addClausesFuel] at h
      split at h
      · simp [fail] at h
      · split at h
        · -- foreign key column
          split at h
          · simp at h
          · rename_i whereNeedsJoin q1 hfk
            have hq1 : q1.fromAlias = q.fromAlias ∧ q1.fromTable = q.fromTable ∧
                q1.limit = q.limit ∧ q1.offset = q.offset := by
              split at hfk
              · have hf := addForeignKeyClause_frame hfk
                exact ⟨hf.1, hf.2.1, hf.2.2.2.1, hf.2.2.2.2.1⟩
              · injection hfk with h1
                injection h1 with hb hq
                subst hq
                exact ⟨rfl, rfl, rfl, rfl⟩
            split at h
            · split at h
              · simp [fail] at h
              · split at h
                · simp at h
                · rename_i st3 q3 hnest
                  have h2 := ih _ _ _ _ _ _ _ _ _ hnest
                  have h3 := ih _ _ _ _ _ _ _ _ _ h
                  simp only [CompiledQuery.innerJoin] at h2
                  exact ⟨h3.1.trans (h2.1.trans hq1.1),
                    h3.2.1.trans (h2.2.1.trans hq1.2.1),
                    h3.2.2.1.trans (h2.2.2.1.trans hq1.2.2.1),
                    h3.2.2.2.trans (h2.2.2.2.trans hq1.2.2.2)⟩
            · have h3 := ih _ _ _ _ _ _ _ _ _ h
              exact ⟨h3.1.trans hq1.1, h3.2.1.trans hq1.2.1,
                h3.2.2.1.trans hq1.2.2.1, h3.2.2.2.trans hq1.2.2.2⟩
        · -- primitive column
          split at h
          · simp at h
          · rename_i q1 hpc
            have hq1 : q1.fromAlias = q.fromAlias ∧ q1.fromTable = q.fromTable ∧
                q1.limit = q.limit ∧ q1.offset = q.offset := by
              split at hpc
              · have hf := addPrimitiveClause_frame hpc
                exact ⟨hf.1, hf.2.1, hf.2.2.2.1, hf.2.2.2.2.1⟩
              · injection hpc with hq
                subst hq
                exact ⟨rfl, rfl, rfl, rfl⟩
            have h3 := ih _ _ _ _ _ _ _ _ _ h
            have hpo : ∀ (c : Bool) (a : String) (b : JsValue),
                ((if c = true then q1.pushOrder a b else q1)).fromAlias = q1.fromAlias ∧
                ((if c = true then q1.pushOrder a b else q1)).fromTable = q1.fromTable ∧
                ((if c = true then q1.pushOrder a b else q1)).limit = q1.limit ∧
                ((if c = true then q1.pushOrder a b else q1)).offset = q1.offset := by
              intro c a b
              split <;> exact ⟨rfl, rfl, rfl, rfl⟩
            refine ⟨?_, ?_, ?_, ?_⟩
            · exact (h3.1.trans (hpo _ _ _).1).trans hq1.1
            · exact (h3.2.1.trans (hpo _ _ _).2.1).trans hq1.2.1
            · exact (h3.2.2.1.trans (hpo _ _ _).2.2.1).trans hq1.2.2.1
            · exact (h3.2.2.2.trans (hpo _ _ _).2.2.2).trans hq1.2.2.2

theorem addClausesGo_frame {catalog : Catalog} {meta : EntityMetadata} {als : String}
    {whereV orderV : JsValue} {keys : List String} {st : AliasState} {q : CompiledQuery}
    {st2 : AliasState} {q2 : CompiledQuery}
    (h : addClausesGo catalog meta als whereV orderV keys st q = .ok (st2, q2)) :
    q2.fromAlias = q.fromAlias ∧ q2.fromTable = q.fromTable ∧
    q2.limit = q.limit ∧ q2.offset = q.offset := by
  rw [addClausesGo_as_fuel] at h
  exact addClausesFuel_frame catalog _ _ _ _ _ _ _ _ _ _ h

theorem opToFn_eq_none {k : String} (hk : k ∉ operators)
    (hp : k ∉ objectProtoMembers) : opToFn (.vStr k) = none := by
  have h : ∀ x, x ∈ operators → ¬ k = x := fun x hx he => hk (he ▸ hx)
  unfold opToFn
  dsimp only
  rw [if_neg (h _ (by simp [operators])), if_neg (h _ (by simp [operators])),
    if_neg (h _ (by simp [operators])), if_neg (h _ (by simp [operators])),
    if_neg (h _ (by simp [operators])), if_neg (h _ (by simp [operators])),
    if_neg (h _ (by simp [operators])), if_neg (h _ (by simp [operators])),
    if_neg (h _ (by simp [operators])), if_neg hp]

theorem opToFn_proto {k : String} (hk : k ∈ objectProtoMembers) :
    opToFn (.vStr k) = some k := by
  fin_cases hk <;> decide

/-- C10 (amended): for a primitive-column clause object whose keys include a
fixed operator key, the compiler dispatches solely on the object's first
enumerated key `k0` with its value `v0`, silently ignoring every other key:
the result is exactly the single operator application of `k0` to `v0`.  In
particular: a fixed operator key other than membership with a non-null
operand adds exactly one predicate for that operator; the membership
operator with an array operand adds exactly one membership predicate, and
with a non-null non-array operand fails with a fatal type error; a
non-operator key with a null/absent value fails with the null-operand
unsupported-operation error rather than the invalid-operator error of the
original claim; a non-operator key with a non-null value fails with the
invalid-operator error unless it names an `Object.prototype` member, in
which case the prototype-chain lookup finds the truthy inherited member and
a predicate using it as the operator is added with no failure. -/
theorem addPrimitiveClause_first_key_dispatch (q : CompiledQuery) (als : String)
    (column : ColumnMeta) (k0 : String) (v0 : JsValue)
    (restFields : List (String × JsValue))
    (hop : ∃ op ∈ operators, op ∈ jsKeys (.vObj ((k0, v0) :: restFields))) :
    addPrimitiveClause q als column (.vObj ((k0, v0) :: restFields)) =
      addPrimitiveOperator q als column (.vStr k0) v0 ∧
    (k0 ∈ operators → k0 ≠ "in" → isNullish v0 = false →
      ∃ fn, addPrimitiveClause q als column (.vObj ((k0, v0) :: restFields)) =
        .ok (q.pushWhereOp (als ++ "." ++ column.columnName) fn (column.mapToDb v0))) ∧
    (k0 = "in" → ∀ elems, v0 = .vArr elems →
      addPrimitiveClause q als column (.vObj ((k0, v0) :: restFields)) =
        .ok (q.pushWhereIn (als ++ "." ++ column.columnName) (elems.map column.mapToDb))) ∧
    (k0 = "in" → isNullish v0 = false → (∀ elems, v0 ≠ .vArr elems) →
      addPrimitiveClause q als column (.vObj ((k0, v0) :: restFields)) =
        .error ("TypeError: value.map is not a function")) ∧
    (k0 ∉ operators → isNullish v0 = true →
      addPrimitiveClause q als column (.vObj ((k0, v0) :: restFields)) =
        .error ("Only ne is supported when the value is undefined or null")) ∧
    (k0 ∉ operators → k0 ∉ objectProtoMembers → isNullish v0 = false →
      addPrimitiveClause q als column (.vObj ((k0, v0) :: restFields)) =
        .error ("Invalid operator " ++ k0)) ∧
    (k0 ∈ objectProtoMembers → isNullish v0 = false →
      addPrimitiveClause q als column (.vObj ((k0, v0) :: restFields)) =
        .ok (q.pushWhereOp (als ++ "." ++ column.columnName) k0 (column.mapToDb v0))) := by
  have hany : (operators.any
      (fun op => (jsKeys (JsValue.vObj ((k0, v0) :: restFields))).contains op)) = true := by
    rw [List.any_eq_true]
    obtain ⟨op, h1, h2⟩ := hop
    exact ⟨op, h1, by simpa using h2⟩
  have hfirst : addPrimitiveClause q als column (.vObj ((k0, v0) :: restFields)) =
      addPrimitiveOperator q als column (.vStr k0) v0 := by
    unfold addPrimitiveClause
    rw [if_pos ⟨rfl, rfl, hany⟩]
    have h2 : jsGet (JsValue.vObj ((k0, v0) :: restFields)) k0 = v0 := by
      simp [jsGet]
    have h1 : (jsKeys (JsValue.vObj ((k0, v0) :: restFields))).headD "" = k0 := rfl
    dsimp only
    rw [h1, h2]
  have hne : k0 ∉ operators → k0 ≠ "ne" ∧ k0 ≠ "eq" ∧ k0 ≠ "in" := by
    intro hk
    refine ⟨?_, ?_, ?_⟩ <;> (intro he; rw [he] at hk; simp [operators] at hk)
  refine ⟨hfirst, ?_, ?_, ?_, ?_, ?_, ?_⟩
  · intro hk hni hnn
    have hstep : ∀ fn, opToFn (.vStr k0) = some fn →
        addPrimitiveOperator q als column (.vStr k0) v0 =
          .ok (q.pushWhereOp (als ++ "." ++ column.columnName) fn (column.mapToDb v0)) := by
      intro fn hfn
      unfold addPrimitiveOperator
      rw [if_neg (by rw [hnn]; exact Bool.false_ne_true)]
      rw [if_neg (by simp [isStrEq, hni])]
      rw [hfn]
    simp only [operators] at hk
    fin_cases hk <;>
      first
        | exact absurd rfl hni
        | exact ⟨_, hfirst.trans (hstep _ rfl)⟩
  · intro hk elems hv
    subst hk
    subst hv
    rw [hfirst]
    unfold addPrimitiveOperator
    rw [if_neg (by simp [isNullish])]
    rw [if_pos (by decide)]
  · intro hk hnn hna
    subst hk
    rw [hfirst]
    unfold addPrimitiveOperator
    rw [if_neg (by rw [hnn]; exact Bool.false_ne_true)]
    rw [if_pos (by decide)]
    cases v0 <;> first | exact absurd rfl (hna _) | rfl
  · intro hk hnull
    rw [hfirst]
    unfold addPrimitiveOperator
    rw [if_pos hnull]
    rw [if_neg (by simp [isStrEq, (hne hk).1])]
    rw [if_neg (by simp [isStrEq, (hne hk).2.1])]
  · intro hk hp hnn
    rw [hfirst]
    unfold addPrimitiveOperator
    rw [if_neg (by rw [hnn]; exact Bool.false_ne_true)]
    rw [if_neg (by simp [isStrEq, (hne hk).2.2])]
    rw [opToFn_eq_none hk hp]
    rfl
  · intro hk hnn
    have hni : k0 ≠ "in" := fun he => absurd (he ▸ hk) (by decide)
    rw [hfirst]
    unfold addPrimitiveOperator
    rw [if_neg (by rw [hnn]; exact Bool.false_ne_true)]
    rw [if_neg (by simp [isStrEq, hni])]
    rw [opToFn_proto hk]

/-- C10 counterexample: for the clause `{foo: null, eq: 5}` the first
enumerated key `foo` is not an operator key and a valid operator key `eq` is
present elsewhere, yet compilation fails with the null-operand
unsupported-operation error, not the invalid-operator error the claim
states. -/
theorem addPrimitiveClause_first_key_cex :
    addPrimitiveClause baseQuery "a0" sampleColumn
        (.vObj [("foo", .vNull), ("eq", .vNum 5)]) =
      .error ("Only ne is supported when the value is undefined or null") ∧
    "Only ne is supported when the value is undefined or null" ≠
      "Invalid operator foo" :=
  ⟨rfl, by decide⟩

theorem addPrimitiveClause_first_key_dispatch_witness :
    addPrimitiveClause baseQuery "a0" sampleColumn
        (.vObj [("gt", .vNum 1), ("eq", .vNum 5)]) =
      addPrimitiveOperator baseQuery "a0" sampleColumn (.vStr "gt") (.vNum 1) ∧
    ∃ fn, addPrimitiveClause baseQuery "a0" sampleColumn
        (.vObj [("gt", .vNum 1), ("eq", .vNum 5)]) =
      .ok (baseQuery.pushWhereOp ("a0" ++ "." ++ sampleColumn.columnName) fn
        (sampleColumn.mapToDb (.vNum 1))) := by
  have h := addPrimitiveClause_first_key_dispatch baseQuery "a0" sampleColumn
    "gt" (.vNum 1) [("eq", .vNum 5)] ⟨"eq", by simp [operators], by simp [jsKeys]⟩
  exact ⟨h.1, h.2.1 (by simp [operators]) (by decide) rfl⟩

theorem addClausesFuel_unknown_key (catalog : Catalog) :
    ∀ (fuel : Nat) (meta : EntityMetadata) (als : String) (whereV orderV : JsValue)
      (keys : List String) (st : AliasState) (q : CompiledQuery),
      (∃ k ∈ keys, meta.columns.find? (fun c => c.fieldName == k) = none) →
      ∃ e, addClausesFuel catalog fuel meta als whereV orderV keys st q = .error e := by
  intro fuel
  induction fuel with
  | zero =>
    intro meta als whereV orderV keys st q hbad
    exact ⟨"out of fuel", rfl⟩
  | succ fuel ih =>
    intro meta als whereV orderV keys st q hbad
    obtain ⟨k, hk, hknone⟩ := hbad
    cases keys with
    | nil => cases hk
    | cons key rest =>
      simp only [addClausesFuel]
      cases hfind : meta.columns.find? (fun c => c.fieldName == key) with
      | none => exact ⟨key ++ " not found", rfl⟩
      | some column =>
        have hkrest : k ∈ rest := by
          rcases List.mem_cons.mp hk with he | he
          · rw [he] at hknone
            rw [hknone] at hfind
            cases hfind
          · exact he
        dsimp only
        cases hkind : column.kind with
        | primitive =>
          dsimp only
          cases hpc : (if (jsTruthy whereV && jsHasKey whereV key) = true then
              addPrimitiveClause q als column (jsGet whereV key) else Except.ok q) with
          | error e => exact ⟨e, rfl⟩
          | ok q1 => exact ih meta als whereV orderV rest st _ ⟨k, hkrest, hknone⟩
        | foreignKey otherIdx =>
          dsimp only
          cases hfk2 : (if (jsTruthy whereV && jsHasKey whereV key) = true then
              addForeignKeyClause q als column (jsGet whereV key)
              else Except.ok (false, q)) with
          | error e => exact ⟨e, rfl⟩
          | ok p =>
            obtain ⟨whereNeedsJoin, q1⟩ := p
            dsimp only
            by_cases hb : (whereNeedsJoin || jsTruthy (jsGet orderV key)) = true
            · rw [dif_pos hb]
              cases hcm : catalog[otherIdx]? with
              | none => exact ⟨"metadata missing for " ++ column.fieldName, rfl⟩
              | some otherMeta =>
                dsimp only
                cases hnest : addClausesFuel catalog fuel otherMeta
                    ((getAlias st otherMeta.tableName).1)
                    (if whereNeedsJoin then jsGet whereV key else .vUndefined)
                    (if jsTruthy (jsGet orderV key) then jsGet orderV key else .vUndefined)
                    (jsKeys (if whereNeedsJoin then jsGet whereV key else .vUndefined) ++
                     jsKeys (if jsTruthy (jsGet orderV key) then jsGet orderV key
                       else .vUndefined))
                    ((getAlias st otherMeta.tableName).2)
                    (q1.innerJoin otherMeta.tableName ((getAlias st otherMeta.tableName).1)
                      (als ++ "." ++ column.columnName)
                      (((getAlias st otherMeta.tableName).1) ++ ".id")) with
                | error e => exact ⟨e, rfl⟩
                | ok p2 =>
                  obtain ⟨st2, q3⟩ := p2
                  exact ih meta als whereV orderV rest st2 q3 ⟨k, hkrest, hknone⟩
            · rw [dif_neg hb]
              exact ih meta als whereV orderV rest st q1 ⟨k, hkrest, hknone⟩

/-- C8: a where-clause or order-by key (at any scope, root or nested) with no
matching column descriptor makes compilation raise a fatal unknown-field
error immediately, aborting without returning a query: at any scope an
unknown key among the where/order-by keys makes the clause compiler return
an error; when the unknown key is the first key processed the error is
exactly "(key) not found"; and an unknown root key makes the whole
`buildQuery` return an error. -/
theorem addClauses_unknown_field :
    (∀ (catalog : Catalog) (meta : EntityMetadata) (als : String)
        (whereV orderV : JsValue) (st : AliasState) (q : CompiledQuery) (k : String),
        k ∈ jsKeys whereV ++ jsKeys orderV →
        meta.columns.find? (fun c => c.fieldName == k) = none →
        ∃ e, addClauses catalog meta als whereV orderV st q = .error e) ∧
    (∀ (catalog : Catalog) (meta : EntityMetadata) (als : String)
        (whereV orderV : JsValue) (st : AliasState) (q : CompiledQuery)
        (k : String) (rest : List String),
        jsKeys whereV ++ jsKeys orderV = k :: rest →
        meta.columns.find? (fun c => c.fieldName == k) = none →
        addClauses catalog meta als whereV orderV st q = .error (k ++ " not found")) ∧
    (∀ (catalog : Catalog) (typeIdx : Nat) (filter : FilterAndSettings)
        (meta : EntityMetadata) (k : String),
        catalog[typeIdx]? = some meta →
        k ∈ jsKeys filter.whereV ++ jsKeys filter.orderBy →
        meta.columns.find? (fun c => c.fieldName == k) = none →
        ∃ e, buildQuery catalog typeIdx filter = .error e) := by
  have hgo : ∀ (catalog : Catalog) (meta : EntityMetadata) (als : String)
      (whereV orderV : JsValue) (st : AliasState) (q : CompiledQuery) (k : String),
      k ∈ jsKeys whereV ++ jsKeys orderV →
      meta.columns.find? (fun c => c.fieldName == k) = none →
      ∃ e, addClauses catalog meta als whereV orderV st q = .error e := by
    intro catalog meta als whereV orderV st q k hk hnone
    unfold addClauses
    rw [addClausesGo_as_fuel]
    exact addClausesFuel_unknown_key catalog _ meta als whereV orderV _ st q ⟨k, hk, hnone⟩
  refine ⟨hgo, ?_, ?_⟩
  · intro catalog meta als whereV orderV st q k rest hkeys hnone
    unfold addClauses
    rw [addClausesGo.eq_def, hkeys]
    dsimp only
    rw [hnone]
    rfl
  · intro catalog typeIdx filter meta k hm hk hnone
    obtain ⟨e, he⟩ := hgo catalog meta
      ((getAlias [] meta.tableName).1) filter.whereV filter.orderBy
      ((getAlias [] meta.tableName).2)
      { fromTable := meta.tableName, fromAlias := (getAlias [] meta.tableName).1,
        joins := [], wheres := [], orders := [], limit := none, offset := none }
      k hk hnone
    refine ⟨e, ?_⟩
    unfold buildQuery
    rw [hm]
    dsimp only
    rw [he]

theorem addClauses_unknown_field_witness :
    ∃ e, buildQuery authorCatalog 0 badFieldFilter = .error e :=
  addClauses_unknown_field.2.2 authorCatalog 0 badFieldFilter authorMeta "badField"
    rfl (by simp [jsKeys, badFieldFilter]) rfl

/-- C1: for every successfully compiled query, after all user-derived order
terms, the assembler appends one final order term on the base table's
identifier column under the base alias in ascending direction, so the last
order term of every compiled query is the base alias's `id` ascending. -/
theorem buildQuery_tail_order (catalog : Catalog) (typeIdx : Nat)
    (filter : FilterAndSettings) (q : CompiledQuery)
    (h : buildQuery catalog typeIdx filter = .ok q) :
    q.orders ≠ [] ∧ q.orders.getLast? = some (q.fromAlias ++ ".id", .vStr "asc") := by
  unfold buildQuery at h
  cases hm : catalog[typeIdx]? with
  | none =>
    rw [hm] at h
    simp [fail] at h
  | some meta =>
    rw [hm] at h
    dsimp only at h
    split at h
    · simp at h
    · rename_i st1 q1 hac
      injection h with hq
      subst hq
      unfold addClauses at hac
      have hframe := addClausesGo_frame hac
      have hfa : q1.fromAlias = (getAlias [] meta.tableName).1 := hframe.1
      have horders : ∀ (qq : CompiledQuery),
          (match filter.offset with
            | some n => if n == 0 then qq else { qq with offset := some n }
            | none => qq).orders = qq.orders := by
        intro qq
        cases filter.offset with
        | none => rfl
        | some n =>
          dsimp only
          split <;> rfl
      have hofa : ∀ (qq : CompiledQuery),
          (match filter.offset with
            | some n => if n == 0 then qq else { qq with offset := some n }
            | none => qq).fromAlias = qq.fromAlias := by
        intro qq
        cases filter.offset with
        | none => rfl
        | some n =>
          dsimp only
          split <;> rfl
      rw [horders, hofa]
      refine ⟨by simp [CompiledQuery.pushOrder], ?_⟩
      show (q1.orders ++ [((getAlias [] meta.tableName).1 ++ ".id", JsValue.vStr "asc")]).getLast?
        = some (q1.fromAlias ++ ".id", JsValue.vStr "asc")
      rw [hfa, List.getLast?_concat]

theorem buildQuery_tail_order_witness :
    basicQuery.orders ≠ [] ∧
    basicQuery.orders.getLast? = some (basicQuery.fromAlias ++ ".id", .vStr "asc") :=
  buildQuery_tail_order authorCatalog 0 basicFilter basicQuery
    ((buildQuery_eq_buildQueryF authorCatalog 0 basicFilter).trans rfl)

/-- C7 (amended): the assembled query's limit is the user-supplied limit when
a non-zero one is given, and the fixed default maximum row count when the
limit is omitted or zero (the zero case is where the original claim fails:
`limit || entityLimit` treats a given limit of 0 as absent); an offset clause
is applied exactly when an offset is explicitly given and non-zero, and an
omitted or zero offset yields no offset clause at all. -/
theorem buildQuery_pagination (catalog : Catalog) (typeIdx : Nat)
    (filter : FilterAndSettings) (q : CompiledQuery)
    (h : buildQuery catalog typeIdx filter = .ok q) :
    (∀ n, filter.limit = some n → n ≠ 0 → q.limit = some n) ∧
    ((filter.limit = none ∨ filter.limit = some 0) → q.limit = some entityLimit) ∧
    (∀ n, filter.offset = some n → n ≠ 0 → q.offset = some n) ∧
    ((filter.offset = none ∨ filter.offset = some 0) → q.offset = none) := by
  unfold buildQuery at h
  cases hm : catalog[typeIdx]? with
  | none =>
    rw [hm] at h
    simp [fail] at h
  | some meta =>
    rw [hm] at h
    dsimp only at h
    split at h
    · simp at h
    · rename_i st1 q1 hac
      injection h with hq
      subst hq
      unfold addClauses at hac
      have hframe := addClausesGo_frame hac
      have hoff : q1.offset = none := hframe.2.2.2
      refine ⟨?_, ?_, ?_, ?_⟩
      · intro n hn hnz
        rw [hn]
        cases filter.offset with
        | none =>
          dsimp only
          rw [if_neg (by simpa using hnz)]
        | some m =>
          dsimp only
          split <;> rw [if_neg (by simpa using hnz)]
      · intro hl
        rcases hl with hl | hl <;> rw [hl] <;>
          cases filter.offset with
          | none => first | rfl | (dsimp only; rw [if_pos (by simp)])
          | some m => dsimp only <;> split <;> first | rfl | (dsimp only; rw [if_pos (by simp)])
      · intro n hn hnz
        rw [hn]
        dsimp only
        rw [if_neg (by simpa using hnz)]
      · intro ho
        rcases ho with ho | ho <;> rw [ho]
        · exact hoff
        · dsimp only
          rw [if_pos (by simp)]
          exact hoff

theorem buildQuery_pagination_witness :
    paginationQuery.limit = some 5 ∧ paginationQuery.offset = some 3 := by
  have h := buildQuery_pagination authorCatalog 0 paginationFilter paginationQuery
    ((buildQuery_eq_buildQueryF authorCatalog 0 paginationFilter).trans rfl)
  exact ⟨h.1 5 rfl (by decide), h.2.2.1 3 rfl (by decide)⟩

/-- C7 counterexample: with an explicit user limit of 0, the compiled query's
limit is the default maximum `entityLimit`, not the user-supplied 0 the claim
requires (`limit || entityLimit` treats 0 as absent). -/
theorem buildQuery_limit_zero_cex :
    (buildQuery authorCatalog 0 limitZeroFilter).map CompiledQuery.limit =
      .ok (some entityLimit) ∧
    entityLimit ≠ 0 ∧
    (buildQuery authorCatalog 0 limitZeroFilter).map CompiledQuery.limit ≠
      .ok (some 0) := by
  refine ⟨?_, by decide, ?_⟩
  · rw [buildQuery_eq_buildQueryF]
    rfl
  · rw [buildQuery_eq_buildQueryF]
    intro hc
    injection hc with h1
    injection h1 with h2
    exact absurd h2 (by decide)

/-- C9: compilation is a deterministic, pure function of the schema catalog,
the entity type and the filter specification: compiling equal inputs yields
structurally identical queries.  (In this embedding the per-call alias
registry is explicit threaded state created fresh inside `buildQuery`,
mirroring the source, so purity holds by construction.) -/
theorem buildQuery_deterministic (catalog : Catalog) (typeIdx : Nat)
    (filter1 filter2 : FilterAndSettings) (h : filter1 = filter2) :
    buildQuery catalog typeIdx filter1 = buildQuery catalog typeIdx filter2 := by
  rw [h]

theorem buildQuery_deterministic_witness :
    buildQuery authorCatalog 0 basicFilter = buildQuery authorCatalog 0 basicFilter :=
  buildQuery_deterministic authorCatalog 0 basicFilter basicFilter rfl

theorem natDigits_lt {n : Nat} (h : n < 10) : natDigits n = [Nat.digitChar n] := by
  rw [natDigits, dif_pos h]

theorem natDigits_ge {n : Nat} (h : ¬ n < 10) :
    natDigits n = natDigits (n / 10) ++ [Nat.digitChar (n % 10)] := by
  rw [natDigits]
  rw [dif_neg h]

theorem natDigits_toDigitsCore :
    ∀ (fuel n : Nat) (ds : List Char), n < fuel →
      Nat.toDigitsCore 10 fuel n ds = natDigits n ++ ds := by
  intro fuel
  induction fuel with
  | zero =>
    intro n ds h
    omega
  | succ fuel ih =>
    intro n ds h
    rw [Nat.toDigitsCore]
    by_cases h10 : n / 10 = 0
    · rw [if_pos h10]
      have hn10 : n < 10 := by omega
      rw [natDigits_lt hn10, Nat.mod_eq_of_lt hn10]
      rfl
    · rw [if_neg h10]
      have hlt : n / 10 < fuel := by
        have := Nat.div_lt_self (show 0 < n by omega) (show 1 < 10 by omega)
        omega
      rw [ih _ _ hlt, natDigits_ge (show ¬ n < 10 by omega)]
      simp

theorem repr_data (n : Nat) : (Nat.repr n).data = natDigits n := by
  show (Nat.toDigits 10 n).asString.data = natDigits n
  unfold Nat.toDigits
  rw [natDigits_toDigitsCore (n + 1) n [] (Nat.lt_succ_self n), List.append_nil]
  rfl

theorem digitChar_isDigit : ∀ k, k < 10 → (Nat.digitChar k).isDigit = true := by decide

theorem digitChar_inj :
    ∀ k1, k1 < 10 → ∀ k2, k2 < 10 → Nat.digitChar k1 = Nat.digitChar k2 → k1 = k2 := by
  decide

theorem natDigits_ne_nil (n : Nat) : natDigits n ≠ [] := by
  by_cases h : n < 10
  · rw [natDigits_lt h]
    simp
  · rw [natDigits_ge h]
    simp

theorem natDigits_digits (n : Nat) : ∀ c ∈ natDigits n, c.isDigit = true := by
  induction n using Nat.strong_induction_on with
  | _ n ih =>
    by_cases h10 : n < 10
    · rw [natDigits_lt h10]
      intro c hc
      simp at hc
      rw [hc]
      exact digitChar_isDigit n h10
    · rw [natDigits_ge h10]
      intro c hc
      rcases List.mem_append.mp hc with hm | hm
      · exact ih (n / 10) (Nat.div_lt_self (by omega) (by omega)) c hm
      · simp at hm
        rw [hm]
        exact digitChar_isDigit _ (Nat.mod_lt _ (by omega))

theorem natDigits_inj (m : Nat) : ∀ n, natDigits m = natDigits n → m = n := by
  induction m using Nat.strong_induction_on with
  | _ m ih =>
    intro n heq
    by_cases hm : m < 10 <;> by_cases hn : n < 10
    · rw [natDigits_lt hm, natDigits_lt hn] at heq
      injection heq with h1 _
      exact digitChar_inj m hm n hn h1
    · exfalso
      rw [natDigits_lt hm, natDigits_ge hn] at heq
      cases hnd : natDigits (n / 10) with
      | nil => exact natDigits_ne_nil _ hnd
      | cons a l =>
        rw [hnd] at heq
        simp at heq
    · exfalso
      rw [natDigits_ge hm, natDigits_lt hn] at heq
      cases hnd : natDigits (m / 10) with
      | nil => exact natDigits_ne_nil _ hnd
      | cons a l =>
        rw [hnd] at heq
        simp at heq
    · rw [natDigits_ge hm, natDigits_ge hn] at heq
      obtain ⟨h1, h2⟩ := List.append_inj' heq (by simp)
      injection h2 with h2m _
      have hdiv := ih (m / 10) (Nat.div_lt_self (by omega) (by omega)) (n / 10) h1
      have hmod := digitChar_inj (m % 10) (Nat.mod_lt _ (by omega)) (n % 10)
        (Nat.mod_lt _ (by omega)) h2m
      omega

theorem nodigit_digit_append : ∀ (l1 l2 d1 d2 : List Char),
    (∀ c ∈ l1, ¬ c.isDigit = true) → (∀ c ∈ l2, ¬ c.isDigit = true) →
    (∀ c ∈ d1, c.isDigit = true) → (∀ c ∈ d2, c.isDigit = true) →
    d1 ≠ [] → d2 ≠ [] → l1 ++ d1 = l2 ++ d2 → l1 = l2 ∧ d1 = d2 := by
  intro l1
  induction l1 with
  | nil =>
    intro l2 d1 d2 hl1 hl2 hd1 hd2 hn1 hn2 heq
    cases l2 with
    | nil => exact ⟨rfl, heq⟩
    | cons c l2t =>
      exfalso
      cases d1 with
      | nil => exact hn1 rfl
      | cons a d1t =>
        simp only [List.nil_append, List.cons_append] at heq
        injection heq with hac _
        exact (hl2 c (by simp)) (hac ▸ hd1 a (by simp))
  | cons a l1t ih =>
    intro l2 d1 d2 hl1 hl2 hd1 hd2 hn1 hn2 heq
    cases l2 with
    | nil =>
      exfalso
      cases d2 with
      | nil => exact hn2 rfl
      | cons b d2t =>
        simp only [List.nil_append, List.cons_append] at heq
        injection heq with hab _
        exact (hl1 a (by simp)) (hab ▸ hd2 b (by simp))
    | cons b l2t =>
      simp only [List.cons_append] at heq
      injection heq with hab htail
      obtain ⟨hl, hd⟩ := ih l2t d1 d2 (fun c hc => hl1 c (by simp [hc]))
        (fun c hc => hl2 c (by simp [hc])) hd1 hd2 hn1 hn2 htail
      exact ⟨by rw [hab, hl], hd⟩

theorem alias_decomp {ab1 ab2 : String} {n1 n2 : Nat}
    (h1 : ∀ c ∈ ab1.data, ¬ c.isDigit = true) (h2 : ∀ c ∈ ab2.data, ¬ c.isDigit = true)
    (heq : ab1 ++ Nat.repr n1 = ab2 ++ Nat.repr n2) : ab1 = ab2 ∧ n1 = n2 := by
  have hdata : ab1.data ++ (Nat.repr n1).data = ab2.data ++ (Nat.repr n2).data := by
    rw [← String.data_append, ← String.data_append, heq]
  rw [repr_data, repr_data] at hdata
  obtain ⟨hl, hd⟩ := nodigit_digit_append ab1.data ab2.data (natDigits n1) (natDigits n2)
    h1 h2 (natDigits_digits n1) (natDigits_digits n2)
    (natDigits_ne_nil n1) (natDigits_ne_nil n2) hdata
  refine ⟨?_, natDigits_inj n1 n2 hd⟩
  cases ab1
  cases ab2
  exact congrArg String.mk hl

theorem lookupCount_cons (x : String × Nat) (l : AliasState) (ab : String) :
    lookupCount (x :: l) ab = if x.1 == ab then x.2 else lookupCount l ab := by
  by_cases h : (x.1 == ab) = true
  · simp only [lookupCount, List.find?, h, if_pos h]
    simp
  · have hf : (x.1 == ab) = false := by simpa using h
    simp only [lookupCount, List.find?, hf, if_neg h]
    simp

theorem lookupCount_setCount_self (st : AliasState) (ab : String) (n : Nat) :
    lookupCount (setCount st ab n) ab = n := by
  induction st with
  | nil =>
    simp [setCount, lookupCount_cons, lookupCount]
  | cons p rest ih =>
    simp only [setCount]
    split
    · simp [lookupCount_cons]
    · rename_i hne
      rw [lookupCount_cons, if_neg hne]
      exact ih

theorem lookupCount_setCount_other (st : AliasState) (ab ab2 : String) (n : Nat)
    (h : ab2 ≠ ab) : lookupCount (setCount st ab n) ab2 = lookupCount st ab2 := by
  induction st with
  | nil =>
    rw [setCount, lookupCount_cons, if_neg (by simpa using fun he => h he.symm)]
  | cons p rest ih =>
    simp only [setCount]
    split
    · rename_i hpe
      have hp1 : p.1 = ab := by simpa using hpe
      rw [lookupCount_cons, lookupCount_cons]
      rw [if_neg (by simpa using fun he => h he.symm), if_neg (by rw [hp1]; simpa using fun he => h he.symm)]
    · rw [lookupCount_cons, lookupCount_cons]
      by_cases hp : (p.1 == ab2) = true
      · rw [if_pos hp, if_pos hp]
      · rw [if_neg hp, if_neg hp]
        exact ih

theorem stle_refl (st : AliasState) : StLe st st := fun _ => le_refl _

theorem stle_trans {s1 s2 s3 : AliasState} (h1 : StLe s1 s2) (h2 : StLe s2 s3) :
    StLe s1 s3 := fun ab => le_trans (h1 ab) (h2 ab)

theorem stle_getAlias (st : AliasState) (t : String) : StLe st (getAlias st t).2 := by
  intro ab
  show lookupCount st ab ≤ lookupCount (setCount st (abbreviation t)
    (lookupCount st (abbreviation t) + 1)) ab
  by_cases h : ab = abbreviation t
  · subst h
    rw [lookupCount_setCount_self]
    omega
  · rw [lookupCount_setCount_other _ _ _ _ h]

theorem aliasOk_mono {st st2 : AliasState} {a : String} (hle : StLe st st2)
    (h : AliasOk st a) : AliasOk st2 a := by
  obtain ⟨ab, n, hd, he, hlt⟩ := h
  exact ⟨ab, n, hd, he, lt_of_lt_of_le hlt (hle ab)⟩

theorem queryAliases_congr {a b : CompiledQuery} (h1 : a.fromAlias = b.fromAlias)
    (h2 : a.joins = b.joins) : queryAliases a = queryAliases b := by
  simp [queryAliases, h1, h2]

theorem queryAliases_innerJoin (q : CompiledQuery) (t a l r : String) :
    queryAliases (q.innerJoin t a l r) = queryAliases q ++ [a] := by
  simp [queryAliases, CompiledQuery.innerJoin]

theorem aliasInv_congr {st : AliasState} {a b : CompiledQuery}
    (h : queryAliases a = queryAliases b) (hinv : AliasInv st a) : AliasInv st b := by
  obtain ⟨h1, h2⟩ := hinv
  rw [h] at h1
  exact ⟨h1, fun x hx => h2 x (h ▸ hx)⟩

theorem aliasInv_step {st : AliasState} {q : CompiledQuery} {t : String}
    (hinv : AliasInv st q) (hdf : ∀ c ∈ (abbreviation t).data, ¬ c.isDigit = true) :
    ∀ q2 : CompiledQuery, queryAliases q2 = queryAliases q ++ [(getAlias st t).1] →
      AliasInv (getAlias st t).2 q2 := by
  intro q2 hq2
  obtain ⟨hnodup, hok⟩ := hinv
  have hstle : StLe st (getAlias st t).2 := stle_getAlias st t
  have hfresh : (getAlias st t).1 ∉ queryAliases q := by
    intro hmem
    obtain ⟨ab2, n2, hd2, he2, hlt2⟩ := hok _ hmem
    have heq : abbreviation t ++ Nat.repr (lookupCount st (abbreviation t)) =
        ab2 ++ Nat.repr n2 := he2 ▸ rfl
    obtain ⟨hab, hn⟩ := alias_decomp hdf hd2 heq
    rw [← hab] at hlt2
    omega
  constructor
  · rw [hq2]
    rw [List.nodup_append]
    refine ⟨hnodup, List.nodup_singleton _, ?_⟩
    intro a ha hb
    have ha2 : a = (getAlias st t).1 := by simpa using hb
    rw [ha2] at ha
    exact hfresh ha
  · intro a ha
    rw [hq2] at ha
    rcases List.mem_append.mp ha with hmem | hmem
    · exact aliasOk_mono hstle (hok a hmem)
    · have ha2 : a = (getAlias st t).1 := by simpa using hmem
      refine ⟨abbreviation t, lookupCount st (abbreviation t), hdf, ha2, ?_⟩
      show lookupCount st (abbreviation t) <
        lookupCount (setCount st (abbreviation t) (lookupCount st (abbreviation t) + 1))
          (abbreviation t)
      rw [lookupCount_setCount_self]
      omega

theorem mem_of_getElem? {l : Catalog} {i : Nat} {a : EntityMetadata}
    (h : l[i]? = some a) : a ∈ l := by
  obtain ⟨hlt, rfl⟩ := List.getElem?_eq_some.mp h
  exact List.getElem_mem hlt

theorem addClausesFuel_aliasInv (catalog : Catalog) (hdf : DigitFree catalog) :
    ∀ (fuel : Nat) (meta : EntityMetadata) (als : String) (whereV orderV : JsValue)
      (keys : List String) (st : AliasState) (q : CompiledQuery)
      (st2 : AliasState) (q2 : CompiledQuery),
      addClausesFuel catalog fuel meta als whereV orderV keys st q = .ok (st2, q2) →
      AliasInv st q → StLe st st2 ∧ AliasInv st2 q2 := by
  intro fuel
  induction fuel with
  | zero =>
    intro meta als whereV orderV keys st q st2 q2 h hinv
    simp [addClausesFuel] at h
  | succ fuel ih =>
    intro meta als whereV orderV keys st q st2 q2 h hinv
    cases keys with
    | nil =>
      simp only [addClausesFuel] at h
      injection h with h1
      injection h1 with hst hq
      subst hst
      subst hq
      exact ⟨stle_refl st, hinv⟩
    | cons key rest =>
      simp only [addClausesFuel] at h
      split at h
      · simp [fail] at h
      · rename_i column hcol
        split at h
        · -- foreign-key column
          rename_i otherIdx hkind
          split at h
          · simp at h
          · rename_i whereNeedsJoin q1 hfk
            have hq1 : queryAliases q1 = queryAliases q := by
              split at hfk
              · have hf := addForeignKeyClause_frame hfk
                exact queryAliases_congr hf.1 hf.2.2.1
              · injection hfk with h1
                injection h1 with hb hqq
                subst hqq
                rfl
            have hinv1 : AliasInv st q1 := aliasInv_congr hq1.symm hinv
            split at h
            · split at h
              · simp [fail] at h
              · rename_i otherMeta hcm
                split at h
                · simp at h
                · rename_i st3 q3 hnest
                  have hdfo : ∀ c ∈ (abbreviation otherMeta.tableName).data,
                      ¬ c.isDigit = true := hdf otherMeta (mem_of_getElem? hcm)
                  have hinv2 := aliasInv_step hinv1 hdfo _
                    (queryAliases_innerJoin q1 otherMeta.tableName
                      ((getAlias st otherMeta.tableName).1)
                      (als ++ "." ++ column.columnName)
                      (((getAlias st otherMeta.tableName).1) ++ ".id"))
                  have h2 := ih _ _ _ _ _ _ _ _ _ hnest hinv2
                  have h3 := ih _ _ _ _ _ _ _ _ _ h h2.2
                  exact ⟨stle_trans (stle_getAlias st _) (stle_trans h2.1 h3.1), h3.2⟩
            · have h3 := ih _ _ _ _ _ _ _ _ _ h hinv1
              exact h3
        · -- primitive column
          split at h
          · simp at h
          · rename_i q1 hpc
            have hq1 : queryAliases q1 = queryAliases q := by
              split at hpc
              · have hf := addPrimitiveClause_frame hpc
                exact queryAliases_congr hf.1 hf.2.2.1
              · injection hpc with hqq
                subst hqq
                rfl
            have hq2o : queryAliases (if jsTruthy (jsGet orderV key) = true then
                q1.pushOrder (als ++ "." ++ column.columnName)
                  (jsGet orderV key) else q1) = queryAliases q1 := by
              split <;> rfl
            exact ih _ _ _ _ _ _ _ _ _ h (aliasInv_congr (hq2o.trans hq1).symm hinv)

/-- C2 (amended): the alias allocator returns `abbreviation ++ counter` and
increments the per-abbreviation counter, and for every compiled query over a
catalog none of whose table-name abbreviations contains a digit character,
all N+1 table aliases (the base alias and one per join) are pairwise
distinct.  The digit-free proviso is forced by the counterexample
`buildQuery_alias_collision_cex`: when an abbreviation may end in digits
(e.g. table `apple_1pear`, abbreviation "a1"), an abbreviation-plus-counter
string of one table can collide with that of another. -/
theorem buildQuery_alias_uniqueness (catalog : Catalog) (typeIdx : Nat)
    (filter : FilterAndSettings) (q : CompiledQuery)
    (h : buildQuery catalog typeIdx filter = .ok q) (hdf : DigitFree catalog) :
    (queryAliases q).Nodup := by
  unfold buildQuery at h
  cases hm : catalog[typeIdx]? with
  | none =>
    rw [hm] at h
    simp [fail] at h
  | some meta =>
    rw [hm] at h
    dsimp only at h
    split at h
    · simp at h
    · rename_i st1 q1 hac
      injection h with hq
      subst hq
      have hqa : ∀ (qq : CompiledQuery),
          queryAliases (match filter.offset with
            | some n => if n == 0 then qq else { qq with offset := some n }
            | none => qq) = queryAliases qq := by
        intro qq
        cases filter.offset with
        | none => rfl
        | some n =>
          dsimp only
          split <;> rfl
      rw [hqa]
      have hmem : meta ∈ catalog := mem_of_getElem? hm
      have hinv0 : AliasInv (getAlias [] meta.tableName).2
          { fromTable := meta.tableName, fromAlias := (getAlias [] meta.tableName).1,
            joins := [], wheres := [], orders := [], limit := none, offset := none } := by
        constructor
        · simp [queryAliases]
        · intro a ha
          simp only [queryAliases, List.map_nil, List.mem_singleton] at ha
          refine ⟨abbreviation meta.tableName, 0, hdf meta hmem, ha, ?_⟩
          show 0 < lookupCount (setCount [] (abbreviation meta.tableName)
            (lookupCount [] (abbreviation meta.tableName) + 1)) (abbreviation meta.tableName)
          rw [lookupCount_setCount_self]
          omega
      unfold addClauses at hac
      rw [addClausesGo_as_fuel] at hac
      have hfin := addClausesFuel_aliasInv catalog hdf _ _ _ _ _ _ _ _ _ _ hac hinv0
      exact hfin.2.1

/-- C2 counterexample: the concrete catalog with base table `apple` (ten
self-referencing foreign keys and one foreign key to `apple_1pear`) and a
filter forcing eleven joins compiles successfully, but the twelve produced
aliases are not pairwise distinct: the eleventh counter value of abbreviation
"a" yields "a10", and so does counter 0 of abbreviation "a1". -/
theorem buildQuery_alias_collision_cex :
    (buildQuery collisionCatalog 0 collisionFilter).map queryAliases =
      .ok ["a0", "a1", "a2", "a3", "a4", "a5", "a6", "a7", "a8", "a9", "a10", "a10"] ∧
    ¬ (["a0", "a1", "a2", "a3", "a4", "a5", "a6", "a7", "a8", "a9", "a10", "a10"] :
        List String).Nodup := by
  constructor
  · rw [buildQuery_eq_buildQueryF]
    rfl
  · decide

theorem buildQuery_alias_uniqueness_witness : (queryAliases basicQuery).Nodup :=
  buildQuery_alias_uniqueness authorCatalog 0 basicFilter basicQuery
    ((buildQuery_eq_buildQueryF authorCatalog 0 basicFilter).trans rfl)
    (by unfold DigitFree; decide)

end QueryBuilder
